import Mathlib

/-!
Verification of the category-classification and record-normalization pipeline
of the scraper repository (src/scrapers/normalizer.py and
src/scrapers/sodre/scraper.py), as a shallow embedding in Lean 4.

Strings are modelled as lists of characters (`Str`).  Python string
primitives (lower/upper, strip, split, `in`, replace, the specific regular
expressions used by the source) are translated into executable Lean
functions.  Python values of heterogeneous type are modelled by `PyVal`;
code that can raise returns `Except`.
-/

/-- Python strings are modelled as lists of characters. -/
abbrev Str := List Char

/-- Converts a Lean string literal to the `Str` model. -/
def S (s : String) : Str := s.toList

/-- Characters Python treats as whitespace for `str.strip`, `str.split()` and
the regex class `\s` (the ASCII whitespace characters plus NEL and NBSP;
exotic Unicode spaces are outside the model). -/
def isPySpace (c : Char) : Bool :=
  c = ' ' || c = '\t' || c = '\n' || c = '\r' || c.toNat = 0xB || c.toNat = 0xC ||
  c.toNat = 0x85 || c.toNat = 0xA0

/-- ASCII digit, the model of the regex class `\d` and of `str.isdigit`. -/
def isDigitCh (c : Char) : Bool := '0' ≤ c && c ≤ '9'

/-- Uppercase-to-lowercase table for `str.lower`: ASCII plus the Latin-1
letters (the character sets actually appearing in the scraper's data). -/
def lowerMap : List (Char × Char) :=
  [('A','a'),('B','b'),('C','c'),('D','d'),('E','e'),('F','f'),('G','g'),('H','h'),
   ('I','i'),('J','j'),('K','k'),('L','l'),('M','m'),('N','n'),('O','o'),('P','p'),
   ('Q','q'),('R','r'),('S','s'),('T','t'),('U','u'),('V','v'),('W','w'),('X','x'),
   ('Y','y'),('Z','z'),
   ('À','à'),('Á','á'),('Â','â'),('Ã','ã'),('Ä','ä'),('Å','å'),('Æ','æ'),('Ç','ç'),
   ('È','è'),('É','é'),('Ê','ê'),('Ë','ë'),('Ì','ì'),('Í','í'),('Î','î'),('Ï','ï'),
   ('Ð','ð'),('Ñ','ñ'),('Ò','ò'),('Ó','ó'),('Ô','ô'),('Õ','õ'),('Ö','ö'),('Ø','ø'),
   ('Ù','ù'),('Ú','ú'),('Û','û'),('Ü','ü'),('Ý','ý'),('Þ','þ'),('Ÿ','ÿ')]

/-- Lowercase-to-uppercase table for `str.upper` (the swap of `lowerMap`;
`ß`, whose Python uppercase is the two-character "SS", is kept fixed). -/
def upperMap : List (Char × Char) := lowerMap.map (fun p => (p.2, p.1))

/-- First-match association-list lookup (model of `dict.get` and the basis of
the character case maps). -/
def assocFind {α β : Type} [DecidableEq α] : List (α × β) → α → Option β
  | [], _ => Option.none
  | (k, v) :: rest, a => if a = k then Option.some v else assocFind rest a

/-- Model of Python `str.lower` on one character. -/
def pyLower (c : Char) : Char := (assocFind lowerMap c).getD c

/-- Model of Python `str.upper` on one character. -/
def pyUpper (c : Char) : Char := (assocFind upperMap c).getD c

/-- A character is uppercase when the lowering table knows it. -/
def isUpperCh (c : Char) : Bool := (assocFind lowerMap c).isSome

/-- A character is cased when either case table knows it. -/
def isCasedCh (c : Char) : Bool := (assocFind lowerMap c).isSome || (assocFind upperMap c).isSome

/-- Model of Python `str.isupper`: at least one cased character and every
cased character uppercase. -/
def py_isupper (s : Str) : Bool :=
  s.any isCasedCh && s.all (fun c => !isCasedCh c || isUpperCh c)

/-- Model of Python `str.capitalize`: first character uppercased, the rest
lowercased. -/
def pyCapitalize : Str → Str
  | [] => []
  | c :: rest => pyUpper c :: rest.map pyLower

/-- The regex class `\w` (word characters) over the modelled alphabet:
ASCII alphanumerics, underscore, and the Latin-1 letters. -/
def isWordChar (c : Char) : Bool :=
  ('a' ≤ c && c ≤ 'z') || ('A' ≤ c && c ≤ 'Z') || isDigitCh c || c = '_' ||
  (0xC0 ≤ c.toNat && c.toNat ≤ 0xFF && c.toNat ≠ 0xD7 && c.toNat ≠ 0xF7) ||
  c.toNat = 0xAA || c.toNat = 0xBA || c.toNat = 0xB5

/-- Drops leading whitespace (the left half of `str.strip`). -/
def dropLeadingWS (s : Str) : Str := s.dropWhile (fun c => isPySpace c)

/-- Drops trailing characters satisfying `p` (for `str.rstrip`). -/
def dropTrailingIf (p : Char → Bool) : Str → Str
  | [] => []
  | c :: rest =>
    match dropTrailingIf p rest with
    | [] => if p c then [] else [c]
    | r => c :: r

/-- Model of Python `str.strip()` (no argument): strip whitespace at both ends. -/
def pyStrip (s : Str) : Str := dropTrailingIf isPySpace (dropLeadingWS s)

/-- Model of Python `str.rstrip(',')`. -/
def rstripComma (s : Str) : Str := dropTrailingIf (fun c => c = ',') s

/-- Model of `re.sub(r'\s+', ' ', s)`: every whitespace run becomes one space. -/
def collapseWS : Str → Str
  | [] => []
  | [c] => if isPySpace c then [' '] else [c]
  | c :: d :: rest =>
    if isPySpace c then
      if isPySpace d then collapseWS (d :: rest)
      else ' ' :: collapseWS (d :: rest)
    else c :: collapseWS (d :: rest)

/-- Accumulator-based whitespace splitter (helper of `pySplitWS`). -/
def splitWSAux : Str → Str → List Str
  | [], acc => if acc = [] then [] else [acc.reverse]
  | c :: rest, acc =>
    if isPySpace c then
      if acc = [] then splitWSAux rest []
      else acc.reverse :: splitWSAux rest []
    else splitWSAux rest (c :: acc)

/-- Model of Python `str.split()` (no argument): split on whitespace runs,
dropping empty pieces. -/
def pySplitWS (s : Str) : List Str := splitWSAux s []

/-- Joins words with a single separator character (model of `sep.join`). -/
def joinSep (sep : Char) : List Str → Str
  | [] => []
  | [w] => w
  | w :: v :: ws => w ++ sep :: joinSep sep (v :: ws)

/-- Model of `' '.join`. -/
def joinWords : List Str → Str := joinSep ' '

/-- Does `pat` occur at the start of `s`? (model of `str.startswith`). -/
def strStarts : Str → Str → Bool
  | [], _ => true
  | _ :: _, [] => false
  | c :: cs, d :: ds => c = d && strStarts cs ds

/-- Model of the Python substring test `needle in hay`. -/
def pyIn (needle : Str) : Str → Bool
  | [] => needle = ([] : Str)
  | c :: rest => strStarts needle (c :: rest) || pyIn needle rest

/-- Fueled worker for `str.replace` (literal global replacement; fuel is the
input length, and every step consumes at least one character). -/
def replaceAllF (pat repl : Str) : Nat → Str → Str
  | 0, s => s
  | _ + 1, [] => []
  | n + 1, c :: rest =>
    if pat ≠ ([] : Str) ∧ strStarts pat (c :: rest) then
      repl ++ replaceAllF pat repl n ((c :: rest).drop pat.length)
    else c :: replaceAllF pat repl n rest

/-- Model of Python `str.replace(pat, repl)` for a non-empty pattern. -/
def replaceAll (pat repl : Str) (s : Str) : Str := replaceAllF pat repl s.length s

/-- Digit list to number (for `int`/`float` conversions). -/
def digitsToNat (s : Str) : Nat := s.foldl (fun acc c => acc * 10 + (c.toNat - '0'.toNat)) 0

/-- Heterogeneous Python values carried by a raw record (floats are modelled
as rationals). -/
inductive PyVal where
  | none
  | str (s : Str)
  | int (n : Int)
  | float (q : Rat)
  | list (xs : List PyVal)
  | dict (d : List (String × PyVal))

/-- A raw record: string-keyed mapping to heterogeneous values. -/
abbrev RawRecord := List (String × PyVal)

/-- `item.get(k, dflt)`. -/
def pyGetD (item : RawRecord) (k : String) (dflt : PyVal) : PyVal :=
  (assocFind item k).getD dflt

/-- `k in item` / `item[k]` as an optional lookup. -/
def pyGetOpt (item : RawRecord) (k : String) : Option PyVal := assocFind item k

/-- Python truthiness of a value. -/
def pyTruthy : PyVal → Bool
  | PyVal.none => false
  | PyVal.str s => !s.isEmpty
  | PyVal.int n => if n = 0 then false else true
  | PyVal.float q => if q = 0 then false else true
  | PyVal.list xs => !xs.isEmpty
  | PyVal.dict d => !d.isEmpty

mutual

/-- Python `repr` of a value, used by `str()` on non-strings.  The reprs of
containers and floats abstract Python's exact formatting (no claim exercises
them); `None` and integers are exact. -/
def pyRepr : PyVal → Str
  | PyVal.none => S "None"
  | PyVal.str s => '\'' :: s ++ ['\'']
  | PyVal.int n => S (toString n)
  | PyVal.float q => S (toString q)
  | PyVal.list xs => '[' :: pyReprList xs ++ [']']
  | PyVal.dict d => Char.ofNat 123 :: pyReprDict d ++ [Char.ofNat 125]

/-- Comma-joined reprs of list elements. -/
def pyReprList : List PyVal → Str
  | [] => []
  | v :: rest => pyRepr v ++ ',' :: pyReprList rest

/-- Comma-joined reprs of dict entries. -/
def pyReprDict : List (String × PyVal) → Str
  | [] => []
  | (k, v) :: rest => S k ++ ':' :: pyRepr v ++ ',' :: pyReprDict rest

end

/-- Python `str()` of a value. -/
def pyStr : PyVal → Str
  | PyVal.str s => s
  | v => pyRepr v

/-- Python `value.lower()` as a method call: succeeds only on strings,
raising `AttributeError` otherwise (this is how
`item.get('source', '').lower()` can raise). -/
def pyLowerMeth : PyVal → Except Str Str
  | PyVal.str s => Except.ok (s.map pyLower)
  | _ => Except.error (S "AttributeError")

/-- Python `int(value)` returning `Option.none` where Python raises.  Strings
are stripped and parsed as an optionally signed digit run; floats truncate
toward zero. -/
def parseIntStrCore (s : Str) : Option Nat :=
  if s ≠ ([] : Str) ∧ s.all isDigitCh then Option.some (digitsToNat s) else Option.none

/-- Signed integer literal parser (for `int(str)`). -/
def parseIntStr (s : Str) : Option Int :=
  match s with
  | '+' :: r => (parseIntStrCore r).map Int.ofNat
  | '-' :: r => (parseIntStrCore r).map (fun n => -(Int.ofNat n))
  | r => (parseIntStrCore r).map Int.ofNat

/-- Python `int(value)` over the heterogeneous value model. -/
def pyIntConv : PyVal → Option Int
  | PyVal.int n => Option.some n
  | PyVal.float q => Option.some (if q < 0 then -((-q).floor) else q.floor)
  | PyVal.str s => parseIntStr (pyStrip s)
  | _ => Option.none

/-- Unsigned decimal literal parser (for `float(str)`; exponents and the
special names are outside the model). -/
def parseFloatCore (s : Str) : Option Rat :=
  let intPart := s.takeWhile isDigitCh
  let rest := s.dropWhile isDigitCh
  match rest with
  | [] => if intPart = ([] : Str) then Option.none else Option.some ((digitsToNat intPart : Nat) : Rat)
  | '.' :: frac =>
    if frac.all isDigitCh ∧ (intPart ≠ ([] : Str) ∨ frac ≠ ([] : Str)) then
      Option.some (((digitsToNat intPart : Nat) : Rat) + ((digitsToNat frac : Nat) : Rat) / ((10 : Rat) ^ frac.length))
    else Option.none
  | _ => Option.none

/-- Signed decimal literal parser. -/
def parseFloatStr (s : Str) : Option Rat :=
  match s with
  | '+' :: r => parseFloatCore r
  | '-' :: r => (parseFloatCore r).map (fun q => -q)
  | r => parseFloatCore r

/-- Python `float(value)` over the heterogeneous value model. -/
def pyFloatConv : PyVal → Option Rat
  | PyVal.int n => Option.some (n : Rat)
  | PyVal.float q => Option.some q
  | PyVal.str s => parseFloatStr (pyStrip s)
  | _ => Option.none

/-- Python banker's rounding to an integer (round-half-even). -/
def roundHalfEven (q : Rat) : Int :=
  let f := q.floor
  let r := q - (f : Rat)
  if r < (1 : Rat) / 2 then f
  else if r > (1 : Rat) / 2 then f + 1
  else if f % 2 = 0 then f else f + 1

/-- Python `round(q, 2)` over rationals. -/
def round2 (q : Rat) : Rat := ((roundHalfEven (q * 100) : Int) : Rat) / 100

/-- Consume one expected character. -/
def matchChar (c : Char) : Str → Option Str
  | d :: rest => if d = c then Option.some rest else Option.none
  | [] => Option.none

/-- Consume one character equal to `c` up to case (regex `re.IGNORECASE`;
`c` is given lowercase). -/
def matchCIChar (c : Char) : Str → Option Str
  | d :: rest => if pyLower d = c then Option.some rest else Option.none
  | [] => Option.none

/-- Consume a literal, case-sensitively. -/
def matchLit : Str → Str → Option Str
  | [], s => Option.some s
  | _ :: _, [] => Option.none
  | c :: cs, d :: ds => if d = c then matchLit cs ds else Option.none

/-- Consume a literal up to case (the literal is given lowercase). -/
def matchCI : Str → Str → Option Str
  | [], s => Option.some s
  | _ :: _, [] => Option.none
  | c :: cs, d :: ds => if pyLower d = c then matchCI cs ds else Option.none

/-- Consume exactly `n` characters satisfying `p` (regex `p{n}`). -/
def matchExactly (p : Char → Bool) : Nat → Str → Option Str
  | 0, s => Option.some s
  | n + 1, c :: rest => if p c then matchExactly p n rest else Option.none
  | _ + 1, [] => Option.none

/-- Consume a maximal non-empty run of characters satisfying `p`
(greedy regex `p+`; no following pattern element here can match a
`p`-character, so maximal munch is faithful). -/
def matchPlusTW (p : Char → Bool) : Str → Option Str
  | c :: rest => if p c then Option.some (rest.dropWhile p) else Option.none
  | [] => Option.none

/-- Fueled global `re.sub` driver: try the matcher at every position from the
left; on a match emit `repl` and continue after the consumed text (Python
resumes scanning after a replacement).  Fuel bounds the number of steps; every
matcher used here consumes at least one character, so `length + 1` suffices. -/
def globalSubR (m : Str → Option Str) (repl : Str) : Nat → Str → Str
  | 0, s => s
  | _ + 1, [] => []
  | n + 1, c :: rest =>
    match m (c :: rest) with
    | Option.some after => repl ++ globalSubR m repl n after
    | Option.none => c :: globalSubR m repl n rest

/-- Global substitution with fuel supplied from the input length. -/
def globalSub (m : Str → Option Str) (repl : Str) (s : Str) : Str :=
  globalSubR m repl (s.length + 1) s

/-- Matcher for `<[^>]+>` at the current position: a `<`, at least one
non-`>` character, then `>`. -/
def matchTag (s : Str) : Option Str :=
  match s with
  | '<' :: rest =>
    let inside := rest.takeWhile (fun c => c ≠ '>')
    match rest.dropWhile (fun c => c ≠ '>') with
    | '>' :: after => if inside = ([] : Str) then Option.none else Option.some after
    | _ => Option.none
  | _ => Option.none

/-- Model of `re.sub(r'<[^>]+>', '', s)`. -/
def stripTags (s : Str) : Str := globalSub matchTag [] s

/-- Matcher for the anchored title prefix `^LOTE\s+\d+\s*[-:—–]?\s*`
(case-insensitive). -/
def matchLote (s : Str) : Option Str := do
  let r ← matchCI (S "lote") s
  let r ← matchPlusTW isPySpace r
  let r ← matchPlusTW isDigitCh r
  let r := r.dropWhile isPySpace
  let r := match r with
    | c :: rest => if c = '-' || c = ':' || c = '—' || c = '–' then rest else r
    | [] => r
  pure (r.dropWhile isPySpace)

/-- Model of `re.sub(r'^LOTE\s+\d+\s*[-:—–]?\s*', '', s, flags=I)` (anchored,
so at most one substitution at the start). -/
def subLote (s : Str) : Str :=
  match matchLote s with
  | Option.some rest => rest
  | Option.none => s

/-- The `na\s*\d+[ªº]\s*pra[çc]a` tail of the auction-round phrase
(case-insensitive). -/
def matchRoundTail (t : Str) : Option Str := do
  let t ← matchCI (S "na") t
  let t := t.dropWhile isPySpace
  let t ← matchPlusTW isDigitCh t
  let t ← (match t with
    | c :: rest => if c = 'ª' || c = 'º' then Option.some rest else Option.none
    | [] => Option.none)
  let t := t.dropWhile isPySpace
  let t ← matchCI (S "pra") t
  let t ← (match t with
    | c :: rest => if pyLower c = 'ç' || pyLower c = 'c' then Option.some rest else Option.none
    | [] => Option.none)
  matchCIChar 'a' t

/-- Matcher for `\d+%\s*(?:abaixo|desconto|off)?\s*na\s*\d+[ªº]\s*pra[çc]a`
(case-insensitive).  The three alternatives start with distinct letters, so at
most one can apply; if taking it makes the tail fail, the engine backtracks to
the empty optional group, which the fallback call mirrors. -/
def matchAuctionPhrase (s : Str) : Option Str := do
  let r ← matchPlusTW isDigitCh s
  let r ← matchChar '%' r
  let r := r.dropWhile isPySpace
  let alt :=
    match matchCI (S "abaixo") r with
    | Option.some t => Option.some t
    | Option.none =>
      match matchCI (S "desconto") r with
      | Option.some t => Option.some t
      | Option.none => matchCI (S "off") r
  match alt with
  | Option.some t =>
    match matchRoundTail (t.dropWhile isPySpace) with
    | Option.some u => Option.some u
    | Option.none => matchRoundTail r
  | Option.none => matchRoundTail r

/-- Model of the first auction-info substitution in `_clean_title`. -/
def subAuctionPhrase (s : Str) : Str := globalSub matchAuctionPhrase [] s

/-- Matcher for `\d+[ªº]\s*pra[çc]a` (case-insensitive). -/
def matchRoundShort (s : Str) : Option Str := do
  let t ← matchPlusTW isDigitCh s
  let t ← (match t with
    | c :: rest => if c = 'ª' || c = 'º' then Option.some rest else Option.none
    | [] => Option.none)
  let t := t.dropWhile isPySpace
  let t ← matchCI (S "pra") t
  let t ← (match t with
    | c :: rest => if pyLower c = 'ç' || pyLower c = 'c' then Option.some rest else Option.none
    | [] => Option.none)
  matchCIChar 'a' t

/-- Model of the second auction-info substitution in `_clean_title`. -/
def subRoundShort (s : Str) : Str := globalSub matchRoundShort [] s

/-- Matcher for `\s*,?\s*Placa\s+FINAL\s+\d+\s*\([A-Z]{2}\)\s*,?`
(case-insensitive; `[A-Z]` under `re.I` accepts any ASCII letter). -/
def matchPlaca (s : Str) : Option Str := do
  let r := s.dropWhile isPySpace
  let r := match r with | ',' :: t => t | _ => r
  let r := r.dropWhile isPySpace
  let r ← matchCI (S "placa") r
  let r ← matchPlusTW isPySpace r
  let r ← matchCI (S "final") r
  let r ← matchPlusTW isPySpace r
  let r ← matchPlusTW isDigitCh r
  let r := r.dropWhile isPySpace
  let r ← matchChar '(' r
  let r ← (match r with
    | c :: rest => if c.isAlpha then Option.some rest else Option.none
    | [] => Option.none)
  let r ← (match r with
    | c :: rest => if c.isAlpha then Option.some rest else Option.none
    | [] => Option.none)
  let r ← matchChar ')' r
  let r := r.dropWhile isPySpace
  pure (match r with | ',' :: t => t | _ => r)

/-- Model of the plate-suffix substitution in `_clean_title`. -/
def subPlaca (s : Str) : Str := globalSub matchPlaca [] s

/-- Matcher for `R\$\s*[\d.,]+` (case-sensitive). -/
def matchMoney (s : Str) : Option Str := do
  let r ← matchChar 'R' s
  let r ← matchChar '$' r
  let r := r.dropWhile isPySpace
  matchPlusTW (fun c => isDigitCh c || c = '.' || c = ',') r

/-- Model of `re.sub(r'R\$\s*[\d.,]+', '', s)`. -/
def subMoney (s : Str) : Str := globalSub matchMoney [] s

/-- Matcher for `<br\s*/?>` (case-insensitive). -/
def matchBr (s : Str) : Option Str := do
  let r ← matchChar '<' s
  let r ← matchCIChar 'b' r
  let r ← matchCIChar 'r' r
  let r := r.dropWhile isPySpace
  let r := match r with | '/' :: t => t | _ => r
  matchChar '>' r

/-- Matcher for `<p>` (case-insensitive). -/
def matchPOpen (s : Str) : Option Str := do
  let r ← matchChar '<' s
  let r ← matchCIChar 'p' r
  matchChar '>' r

/-- Matcher for `</p>` (case-insensitive). -/
def matchPClose (s : Str) : Option Str := do
  let r ← matchChar '<' s
  let r ← matchChar '/' r
  let r ← matchCIChar 'p' r
  matchChar '>' r

/-- Matcher for the numeric HTML entity pattern `&#\d+;`. -/
def matchEntity (s : Str) : Option Str := do
  let r ← matchChar '&' s
  let r ← matchChar '#' r
  let r ← matchPlusTW isDigitCh r
  matchChar ';' r

/-- Suffix of `run` after its last newline. -/
def afterLastNL (run : Str) : Str := (run.reverse.takeWhile (fun c => c ≠ '\n')).reverse

/-- Matcher for `\n\s*\n\s*\n+`: with greedy backtracking this matches at a
newline whose maximal whitespace run contains at least three newlines in
total, consuming through the last newline of the run. -/
def matchBlankLines (s : Str) : Option Str :=
  match s with
  | '\n' :: rest =>
    let run := rest.takeWhile isPySpace
    if 2 ≤ run.count '\n' then
      Option.some (afterLastNL run ++ rest.dropWhile isPySpace)
    else Option.none
  | _ => Option.none

/-- Model of `re.sub(r'\n\s*\n\s*\n+', '\n\n', s)`. -/
def subBlankLines (s : Str) : Str := globalSub matchBlankLines (S "\n\n") s

/-- Matcher for `' {2,}'`: two or more literal spaces. -/
def matchSpaces2 (s : Str) : Option Str :=
  match s with
  | ' ' :: ' ' :: rest => Option.some (rest.dropWhile (fun c => c = ' '))
  | _ => Option.none

/-- Model of `re.sub(r' {2,}', ' ', s)`. -/
def subSpaces2 (s : Str) : Str := globalSub matchSpaces2 (S " ") s

/-- Model of `str.split('\n')` (keeps empty pieces). -/
def splitNL : Str → List Str
  | [] => [[]]
  | '\n' :: rest => [] :: splitNL rest
  | c :: rest =>
    match splitNL rest with
    | [] => [[c]]
    | l :: ls => (c :: l) :: ls

/-- Matcher for `https?://[^\s]+` (case-sensitive; the optional `s` backtracks
when taking it prevents `://` from matching). -/
def matchURL (s : Str) : Option Str := do
  let r ← matchLit (S "http") s
  let r ← (match r with
    | 's' :: t =>
      match matchLit (S "://") t with
      | Option.some u => Option.some u
      | Option.none => matchLit (S "://") r
    | _ => matchLit (S "://") r)
  matchPlusTW (fun c => !isPySpace c) r

/-- Model of `re.sub(r'https?://[^\s]+', '', s)`. -/
def subURL (s : Str) : Str := globalSub matchURL [] s

/-- Worker for the e-mail substitution: `re.sub(r'\S+@\S+', '', s)` removes
exactly each maximal non-whitespace run containing an `@` that has at least
one character on each side within the run (the greedy `\S+` pieces then cover
the whole run). -/
def emailSubF : Nat → Str → Str
  | 0, s => s
  | _ + 1, [] => []
  | n + 1, c :: rest =>
    if isPySpace c then c :: emailSubF n rest
    else
      let run := (c :: rest).takeWhile (fun x => !isPySpace x)
      let after := (c :: rest).dropWhile (fun x => !isPySpace x)
      (if ((run.drop 1).dropLast).any (fun x => x = '@') then [] else run) ++ emailSubF n after

/-- Model of `re.sub(r'\S+@\S+', '', s)`. -/
def subEmail (s : Str) : Str := emailSubF (s.length + 1) s

/-- Matcher for `\(\d{2}\)\s*\d{4,5}-?\d{4}`: greedy `\d{4,5}` tries five
digits first, then four; the optional hyphen is taken when present. -/
def matchPhone (s : Str) : Option Str := do
  let r ← matchChar '(' s
  let r ← matchExactly isDigitCh 2 r
  let r ← matchChar ')' r
  let r := r.dropWhile isPySpace
  let tail4 := fun (t : Str) =>
    match t with
    | '-' :: u => matchExactly isDigitCh 4 u
    | u => matchExactly isDigitCh 4 u
  match matchExactly isDigitCh 5 r with
  | Option.some t =>
    match tail4 t with
    | Option.some u => Option.some u
    | Option.none => do
      let t4 ← matchExactly isDigitCh 4 r
      tail4 t4
  | Option.none => do
    let t4 ← matchExactly isDigitCh 4 r
    tail4 t4

/-- Model of `re.sub(r'\(\d{2}\)\s*\d{4,5}-?\d{4}', '', s)`. -/
def subPhone (s : Str) : Str := globalSub matchPhone [] s

/-- Matcher for the anchored suffix `-j\d+$` (case-insensitive): at the
current position, a `-`, a `j`, then digits running to the end. -/
def matchJSuffix (s : Str) : Bool :=
  match s with
  | '-' :: c :: rest => pyLower c = 'j' && rest ≠ ([] : Str) && rest.all isDigitCh
  | _ => false

/-- Model of `re.sub(r'-j\d+$', '', s, flags=I)`: remove the leftmost suffix
occurrence. -/
def subJSuffix : Str → Str
  | [] => []
  | c :: rest => if matchJSuffix (c :: rest) then [] else c :: subJSuffix rest

/-- Matcher for the anchored suffix `-\d{5,}$`. -/
def matchD5Suffix (s : Str) : Bool :=
  match s with
  | '-' :: rest => 5 ≤ rest.length && rest.all isDigitCh
  | _ => false

/-- Model of `re.sub(r'-\d{5,}$', '', s)`. -/
def subD5Suffix : Str → Str
  | [] => []
  | c :: rest => if matchD5Suffix (c :: rest) then [] else c :: subD5Suffix rest

/-- `UniversalNormalizer.VALID_STATES` from normalizer.py. -/
def VALID_STATES : List Str :=
  [S "AC", S "AL", S "AP", S "AM", S "BA", S "CE", S "DF", S "ES", S "GO", S "MA",
   S "MT", S "MS", S "MG", S "PA", S "PB", S "PR", S "PE", S "PI", S "RJ", S "RN",
   S "RS", S "RO", S "RR", S "SC", S "SP", S "SE", S "TO"]

/-- `UniversalNormalizer.LOWERCASE_WORDS` from normalizer.py. -/
def LOWERCASE_WORDS : List Str :=
  [S "de", S "da", S "do", S "das", S "dos", S "e", S "em", S "com", S "para", S "por",
   S "a", S "o", S "à", S "ao", S "no", S "na", S "um", S "uma"]

/-- The per-word rule of `_smart_title_case` for words after the first:
keep short all-caps tokens, lowercase the connector words, else capitalize. -/
def title_word (word : Str) : Str :=
  let word_lower := word.map pyLower
  if py_isupper word = true ∧ word.length ≤ 5 then word
  else if word_lower ∈ LOWERCASE_WORDS then word_lower
  else pyCapitalize word

/-- `UniversalNormalizer._smart_title_case`: split on whitespace, capitalize
the first word unconditionally, apply `title_word` to the rest, join with
single spaces; empty or all-whitespace input is returned unchanged. -/
def smart_title_case (text : Str) : Str :=
  if text = ([] : Str) then text
  else
    match pySplitWS text with
    | [] => text
    | w :: ws => joinWords (pyCapitalize w :: ws.map title_word)

/-- `UniversalNormalizer._clean_title` from normalizer.py. -/
def clean_title (title : PyVal) (remove_auction_info : Bool) : Str :=
  if pyTruthy title = false then S "Sem Título"
  else if pyStrip (pyStr title) = ([] : Str) then S "Sem Título"
  else
    let clean := pyStrip (pyStr title)
    let clean := subLote clean
    let clean := stripTags clean
    let clean := replaceAll (S "&nbsp;") (S " ") clean
    let clean := replaceAll (S "&amp;") (S "&") clean
    let clean := if remove_auction_info then subRoundShort (subAuctionPhrase clean) else clean
    let clean := pyStrip (rstripComma clean)
    let clean := subPlaca clean
    let clean := clean.map (fun c => if c = '_' then ' ' else c)
    let clean := pyStrip (collapseWS clean)
    let clean := subMoney clean
    let clean := if 200 < clean.length then clean.take 197 ++ S "..." else clean
    if clean = ([] : Str) then S "Sem Título" else clean

/-- `UniversalNormalizer._extract_title_from_external_id`: only `startswith`
on a non-string truthy value can raise, hence the `Except`. -/
def extract_title_from_external_id (external_id : PyVal) : Except Str Str :=
  if pyTruthy external_id = false then Except.ok (S "Sem Título")
  else
    match external_id with
    | PyVal.str s =>
      let clean := s
      let clean := if strStarts (S "megaleiloes_") clean then clean.drop (S "megaleiloes_").length else clean
      let clean := subJSuffix clean
      let clean := subD5Suffix clean
      let clean := clean.map (fun c => if c = '-' then ' ' else c)
      let clean := clean.map (fun c => if c = '_' then ' ' else c)
      let clean := pyStrip (collapseWS clean)
      let clean := clean.filter (fun c => isWordChar c || isPySpace c)
      let clean := if 200 < clean.length then clean.take 197 ++ S "..." else clean
      Except.ok (if clean = ([] : Str) then S "Sem Título" else clean)
    | _ => Except.error (S "AttributeError")

/-- The tag-to-newline, entity, blank-line, per-line strip, URL/e-mail/phone
and whitespace stages of `_deep_clean_description` (source lines 181–199). -/
def deep_clean_core (desc0 : Str) : Str :=
  let desc := globalSub matchBr (S "\n") desc0
  let desc := globalSub matchPOpen (S "\n\n") desc
  let desc := globalSub matchPClose (S "\n") desc
  let desc := stripTags desc
  let desc := replaceAll (S "&nbsp;") (S " ") desc
  let desc := replaceAll (S "&amp;") (S "&") desc
  let desc := globalSub matchEntity [] desc
  let desc := subBlankLines desc
  let desc := subSpaces2 desc
  let desc := joinSep '\n' (((splitNL desc).map pyStrip).filter (fun l => l ≠ ([] : Str)))
  let desc := subURL desc
  let desc := subEmail desc
  let desc := subPhone desc
  pyStrip (collapseWS desc)

/-- `UniversalNormalizer._deep_clean_description` (its `remove_auction_info`
parameter is accepted but unused in the source body): note that the
short-input discard (< 5 characters) tests the stripped raw input, while the
cleaned text is only discarded when empty. -/
def deep_clean_description (description : PyVal) (_remove_auction_info : Bool) : Option Str :=
  if pyTruthy description = false then Option.none
  else
    let desc := pyStrip (pyStr description)
    if desc = ([] : Str) ∨ desc.length < 5 then Option.none
    else
      let desc := deep_clean_core desc
      let desc := if 5000 < desc.length then desc.take 4997 ++ S "..." else desc
      if desc = ([] : Str) then Option.none else Option.some desc

/-- The accent-substitution table of `_normalize_for_search`. -/
def accent_replacements : List (Char × Char) :=
  [('á','a'),('à','a'),('â','a'),('ã','a'),('ä','a'),
   ('é','e'),('è','e'),('ê','e'),('ë','e'),
   ('í','i'),('ì','i'),('î','i'),('ï','i'),
   ('ó','o'),('ò','o'),('ô','o'),('õ','o'),('ö','o'),
   ('ú','u'),('ù','u'),('û','u'),('ü','u'),
   ('ç','c'),('ñ','n')]

/-- The `for old, new in replacements.items(): normalized.replace(old, new)`
loop (each replacement is a single character, hence a pointwise map). -/
def apply_replacements (s : Str) : Str :=
  accent_replacements.foldl (fun acc p => acc.map (fun c => if c = p.1 then p.2 else c)) s

/-- `UniversalNormalizer._normalize_for_search` (its `None` guard is the
empty-string case in this model): lowercase, fold accents, replace
non-word/non-space characters by spaces, collapse, strip. -/
def normalize_for_search (title : Str) : Str :=
  if title = ([] : Str) then []
  else
    let normalized := title.map pyLower
    let normalized := apply_replacements normalized
    let normalized := normalized.map (fun c => if isWordChar c || isPySpace c then c else ' ')
    pyStrip (collapseWS normalized)

/-- `UniversalNormalizer._create_preview`. -/
def create_preview (description : Option Str) (title : Str) : Str :=
  match description with
  | Option.some d =>
    if d ≠ ([] : Str) ∧ 10 < d.length then
      let preview := pyStrip (d.take 150)
      if 150 < d.length then preview ++ S "..." else preview
    else if title ≠ ([] : Str) then title.take 150 else S "Sem Descrição"
  | Option.none =>
    if title ≠ ([] : Str) then title.take 150 else S "Sem Descrição"

/-- `UniversalNormalizer._parse_value`: float conversion, negatives rejected,
rounded to two decimals (the bare `except` is the `Option.none` branch of
`pyFloatConv`). -/
def parse_value (value : PyVal) : Option Rat :=
  match value with
  | PyVal.none => Option.none
  | v =>
    match pyFloatConv v with
    | Option.none => Option.none
    | Option.some q => if q < 0 then Option.none else Option.some (round2 q)

/-- `UniversalNormalizer._clean_city`. -/
def clean_city (city : PyVal) : Option Str :=
  if pyTruthy city = false then Option.none
  else
    let city_clean := pyStrip (pyStr city)
    if city_clean = ([] : Str) then Option.none
    else
      let city_clean := if city_clean.any (fun c => c = '/') then pyStrip (city_clean.takeWhile (fun c => c ≠ '/')) else city_clean
      let city_clean := if city_clean.any (fun c => c = '-') then pyStrip (city_clean.takeWhile (fun c => c ≠ '-')) else city_clean
      Option.some (smart_title_case city_clean)

/-- `UniversalNormalizer._validate_state`. -/
def validate_state (state : PyVal) : Option Str :=
  if pyTruthy state = false then Option.none
  else
    let state_clean := (pyStrip (pyStr state)).map pyUpper
    if state_clean ∈ VALID_STATES then Option.some state_clean else Option.none

/-- `UniversalNormalizer._clean_address`. -/
def clean_address (address : PyVal) : Option Str :=
  if pyTruthy address = false then Option.none
  else
    let addr := pyStrip (pyStr address)
    if addr = ([] : Str) ∨ addr.length < 3 then Option.none
    else
      let addr := smart_title_case addr
      Option.some (if 255 < addr.length then addr.take 252 ++ S "..." else addr)

/-- Consume the date prefix `\d{4}-\d{2}-\d{2}` of the pattern in
`_parse_date`. -/
def dateCore (s : Str) : Option Str := do
  let r ← matchExactly isDigitCh 4 s
  let r ← matchChar '-' r
  let r ← matchExactly isDigitCh 2 r
  let r ← matchChar '-' r
  matchExactly isDigitCh 2 r

/-- Consume the optional time group `[T\s]\d{2}:\d{2}:\d{2}`. -/
def dateTimeTail (s : Str) : Option Str := do
  let r ← (match s with
    | c :: t => if c = 'T' || isPySpace c then Option.some t else Option.none
    | [] => Option.none)
  let r ← matchExactly isDigitCh 2 r
  let r ← matchChar ':' r
  let r ← matchExactly isDigitCh 2 r
  let r ← matchChar ':' r
  matchExactly isDigitCh 2 r

/-- `re.match(r'\d{4}-\d{2}-\d{2}(?:[T\s]\d{2}:\d{2}:\d{2})?', s)` as a
success test: `re.match` anchors only at the start (trailing text allowed),
and the time group is optional, so its failure never fails the match —
success is exactly the date prefix matching. -/
def dateMatch (s : Str) : Bool :=
  match dateCore s with
  | Option.some r =>
    let _optional_time := dateTimeTail r
    true
  | Option.none => false

/-- `UniversalNormalizer._parse_date`. -/
def parse_date (date_str : PyVal) : Option Str :=
  if pyTruthy date_str = false then Option.none
  else
    let date_clean := pyStrip (pyStr date_str)
    if date_clean = ([] : Str) then Option.none
    else if dateMatch date_clean then Option.some date_clean
    else Option.none

/-- `UniversalNormalizer._parse_days_remaining`. -/
def parse_days_remaining (days : PyVal) : Option Int :=
  match days with
  | PyVal.none => Option.none
  | v =>
    match pyIntConv v with
    | Option.none => Option.none
    | Option.some d => if d < 0 then Option.some 0 else Option.some d

/-- Model of Python `str.isdigit`. -/
def py_isdigit (s : Str) : Bool := !s.isEmpty && s.all isDigitCh

/-- `UniversalNormalizer._clean_text`. -/
def clean_text (text : PyVal) (dflt : Option Str) : Option Str :=
  if pyTruthy text = false then dflt
  else
    let clean := pyStrip (pyStr text)
    if clean = ([] : Str) then dflt
    else
      let clean := if py_isdigit clean then clean else smart_title_case clean
      Option.some (if 200 < clean.length then clean.take 197 ++ S "..." else clean)

/-- `UniversalNormalizer._parse_int`. -/
def parse_int (value : PyVal) (dflt : Int) : Int :=
  match value with
  | PyVal.none => dflt
  | v => (pyIntConv v).getD dflt

/-- The `extra_fields` allowlist of `_build_metadata`. -/
def extra_fields : List String :=
  ["raw_category", "condition", "brand", "model", "year", "quantity", "unit_price"]

/-- Python dict assignment `d[k] = v` on an association list with unique keys:
replace in place, else append. -/
def dictSet : List (String × PyVal) → String → PyVal → List (String × PyVal)
  | [], k, v => [(k, v)]
  | (k', v') :: rest, k, v =>
    if k' = k then (k, v) :: rest else (k', v') :: dictSet rest k v

/-- The starting metadata of `_build_metadata`: a copy of `item['metadata']`
when it is a dict, else empty. -/
def metaBase (item : RawRecord) : List (String × PyVal) :=
  match pyGetOpt item "metadata" with
  | Option.some (PyVal.dict d) => d
  | _ => []

/-- One `for field in extra_fields` step of `_build_metadata`:
`if field in item and item[field] is not None: metadata[field] = item[field]`. -/
def metaStep (item : RawRecord) (m : List (String × PyVal)) (f : String) : List (String × PyVal) :=
  match pyGetOpt item f with
  | Option.some PyVal.none => m
  | Option.some v => dictSet m f v
  | Option.none => m

/-- `UniversalNormalizer._build_metadata`. -/
def build_metadata (item : RawRecord) : List (String × PyVal) :=
  extra_fields.foldl (metaStep item) (metaBase item)

/-- The canonical output record of `UniversalNormalizer.normalize`
(pass-through fields keep the heterogeneous value type). -/
structure NormalizedRecord where
  source : PyVal
  external_id : PyVal
  title : Str
  normalized_title : Str
  description : Option Str
  description_preview : Str
  value : Option Rat
  value_text : PyVal
  auction_round : PyVal
  discount_percentage : PyVal
  first_round_value : Option Rat
  first_round_date : PyVal
  city : Option Str
  state : Option Str
  address : Option Str
  auction_date : Option Str
  days_remaining : Option Int
  auction_type : Option Str
  auction_name : Option Str
  store_name : Option Str
  lot_number : Option Str
  total_visits : Int
  total_bids : Int
  total_bidders : Int
  link : PyVal
  vehicle_type : PyVal
  property_type : PyVal
  animal_type : PyVal
  appliance_type : PyVal
  tech_type : PyVal
  parts_type : PyVal
  specialized_type : PyVal
  construction_material_type : PyVal
  consumption_goods_type : PyVal
  metadata : List (String × PyVal)

/-- The title branch of `normalize`: MegaLeilões records take the title from
the external id (which can raise on a truthy non-string id), everything else
runs `_clean_title` on the raw title. -/
def titleResultE (source : Str) (item : RawRecord) : Except Str Str :=
  let external_id := pyGetD item "external_id" (PyVal.str [])
  if source = S "megaleiloes" ∧ pyTruthy external_id = true then
    extract_title_from_external_id external_id
  else Except.ok (clean_title (pyGetD item "title" (PyVal.str [])) true)

/-- The record literal returned by `UniversalNormalizer.normalize`, given the
already-computed clean title `ct`. -/
def buildRecord (item : RawRecord) (ct : Str) : NormalizedRecord :=
  let clean_title := smart_title_case ct
  let clean_description := deep_clean_description (pyGetD item "description" (PyVal.str [])) true
  { source := pyGetD item "source" PyVal.none
    external_id := pyGetD item "external_id" PyVal.none
    title := clean_title
    normalized_title := normalize_for_search clean_title
    description := clean_description
    description_preview := create_preview clean_description clean_title
    value := parse_value (pyGetD item "value" PyVal.none)
    value_text := pyGetD item "value_text" PyVal.none
    auction_round := pyGetD item "auction_round" PyVal.none
    discount_percentage := pyGetD item "discount_percentage" PyVal.none
    first_round_value := parse_value (pyGetD item "first_round_value" PyVal.none)
    first_round_date := pyGetD item "first_round_date" PyVal.none
    city := clean_city (pyGetD item "city" PyVal.none)
    state := validate_state (pyGetD item "state" PyVal.none)
    address := clean_address (pyGetD item "address" PyVal.none)
    auction_date := parse_date (pyGetD item "auction_date" PyVal.none)
    days_remaining := parse_days_remaining (pyGetD item "days_remaining" PyVal.none)
    auction_type := clean_text (pyGetD item "auction_type" PyVal.none) (Option.some (S "Leilão"))
    auction_name := clean_text (pyGetD item "auction_name" PyVal.none) Option.none
    store_name := clean_text (pyGetD item "store_name" PyVal.none) Option.none
    lot_number := clean_text (pyGetD item "lot_number" PyVal.none) Option.none
    total_visits := parse_int (pyGetD item "total_visits" PyVal.none) 0
    total_bids := parse_int (pyGetD item "total_bids" PyVal.none) 0
    total_bidders := parse_int (pyGetD item "total_bidders" PyVal.none) 0
    link := pyGetD item "link" PyVal.none
    vehicle_type := pyGetD item "vehicle_type" PyVal.none
    property_type := pyGetD item "property_type" PyVal.none
    animal_type := pyGetD item "animal_type" PyVal.none
    appliance_type := pyGetD item "appliance_type" PyVal.none
    tech_type := pyGetD item "tech_type" PyVal.none
    parts_type := pyGetD item "parts_type" PyVal.none
    specialized_type := pyGetD item "specialized_type" PyVal.none
    construction_material_type := pyGetD item "construction_material_type" PyVal.none
    consumption_goods_type := pyGetD item "consumption_goods_type" PyVal.none
    metadata := build_metadata item }

/-- `UniversalNormalizer.normalize` from normalizer.py.  The two operations
that can raise in the source — `item.get('source', '').lower()` on a
non-string value, and `startswith` inside
`_extract_title_from_external_id` — are threaded through `Except`; everything
else is total. -/
def UniversalNormalizer.normalize (item : RawRecord) : Except Str NormalizedRecord :=
  match pyLowerMeth (pyGetD item "source" (PyVal.str [])) with
  | Except.error e => Except.error e
  | Except.ok source =>
    match titleResultE source item with
    | Except.error e => Except.error e
    | Except.ok ct => Except.ok (buildRecord item ct)

/-- `SodreScraperCategorizado.category_mapping` from scraper.py: the
exact-match table from lowercase subcategory labels to the ten canonical
categories. -/
def category_mapping : List (Str × Str) :=
  [(S "apartamento", S "Imóveis"),
   (S "casa", S "Imóveis"),
   (S "casa / construção", S "Imóveis"),
   (S "complexo industrial", S "Imóveis"),
   (S "complexo residencial e de lazer", S "Imóveis"),
   (S "direitos sobre apartamento", S "Imóveis"),
   (S "direitos sobre imóvel residencial", S "Imóveis"),
   (S "direitos sobre terreno", S "Imóveis"),
   (S "galpão industrial", S "Imóveis"),
   (S "galpões comerciais e residência", S "Imóveis"),
   (S "gleba de terra", S "Imóveis"),
   (S "imóvel comercial e residencial", S "Imóveis"),
   (S "imóvel residencial", S "Imóveis"),
   (S "imóvel residencial com 3 edificações", S "Imóveis"),
   (S "imóvel residencial tipo sobrado", S "Imóveis"),
   (S "lote de terreno", S "Imóveis"),
   (S "parte ideal de 1/6 sobre imóvel residencial", S "Imóveis"),
   (S "parte ideal de 50% sobre lote de terreno", S "Imóveis"),
   (S "parte ideal de 50% sobre nua-propriedade", S "Imóveis"),
   (S "terreno", S "Imóveis"),
   (S "terreno urbano", S "Imóveis"),
   (S "área de terras", S "Imóveis"),
   (S "caminhões", S "Veículos"),
   (S "carros", S "Veículos"),
   (S "embarcações", S "Veículos"),
   (S "motos", S "Veículos"),
   (S "onibus", S "Veículos"),
   (S "peruas", S "Veículos"),
   (S "utilit. pesados", S "Veículos"),
   (S "utilitarios leves", S "Veículos"),
   (S "van leve", S "Veículos"),
   (S "veículos", S "Veículos"),
   (S "bicicleta", S "Veículos"),
   (S "compressores de ar", S "Máquinas & Equipamentos"),
   (S "empilhadeiras", S "Máquinas & Equipamentos"),
   (S "equip. e mat. industriais", S "Máquinas & Equipamentos"),
   (S "geradores", S "Máquinas & Equipamentos"),
   (S "implementos agrícolas", S "Máquinas & Equipamentos"),
   (S "implementos rod.", S "Máquinas & Equipamentos"),
   (S "terraplenagem", S "Máquinas & Equipamentos"),
   (S "tratores", S "Máquinas & Equipamentos"),
   (S "eletricos", S "Tecnologia"),
   (S "informatica", S "Tecnologia"),
   (S "áudio, vídeo e iluminação", S "Tecnologia"),
   (S "eletrodomesticos", S "Tecnologia"),
   (S "moveis para escritório", S "Casa & Consumo"),
   (S "móveis p/ casa", S "Casa & Consumo"),
   (S "lazer/esportes", S "Casa & Consumo"),
   (S "uso pessoal", S "Casa & Consumo"),
   (S "materiais escolares", S "Casa & Consumo"),
   (S "academia", S "Industrial & Empresarial"),
   (S "esquadrias e estruturas metálicas", S "Industrial & Empresarial"),
   (S "ferramentas", S "Industrial & Empresarial"),
   (S "hospitalar", S "Industrial & Empresarial"),
   (S "diversos", S "Materiais & Sucatas"),
   (S "instrumentos musicais", S "Arte & Colecionáveis"),
   (S "unknown", S "Outros")]

/-- The substring-fallback chain of `_categorize_item` (declaration order;
first hit wins). -/
def fallbackCategorize (c : Str) : Str :=
  if pyIn (S "imovel") c || pyIn (S "imóvel") c || pyIn (S "apartamento") c ||
     pyIn (S "casa") c || pyIn (S "terreno") c || pyIn (S "galpão") c then S "Imóveis"
  else if pyIn (S "carro") c || pyIn (S "moto") c || pyIn (S "caminhão") c ||
     pyIn (S "veículo") c || pyIn (S "veiculo") c || pyIn (S "ônibus") c then S "Veículos"
  else if pyIn (S "trator") c || pyIn (S "empilhadeira") c || pyIn (S "gerador") c ||
     pyIn (S "compressor") c || pyIn (S "implemento") c then S "Máquinas & Equipamentos"
  else if pyIn (S "informática") c || pyIn (S "informatica") c || pyIn (S "eletron") c ||
     pyIn (S "eletr") c || pyIn (S "áudio") c || pyIn (S "audio") c then S "Tecnologia"
  else if pyIn (S "móvel") c || pyIn (S "movel") c || pyIn (S "lazer") c ||
     pyIn (S "esporte") c then S "Casa & Consumo"
  else if pyIn (S "ferramenta") c || pyIn (S "industrial") c || pyIn (S "academia") c ||
     pyIn (S "hospitalar") c then S "Industrial & Empresarial"
  else if pyIn (S "sucata") c || pyIn (S "material") c || pyIn (S "diversos") c then S "Materiais & Sucatas"
  else if pyIn (S "instrumento") c || pyIn (S "musical") c || pyIn (S "arte") c ||
     pyIn (S "colecionável") c then S "Arte & Colecionáveis"
  else S "Outros"

/-- `SodreScraperCategorizado._categorize_item`: falsy input yields "Outros";
otherwise lowercase and strip, take the exact table entry when its value is
truthy, else run the substring fallback chain. -/
def categorize_item (subcategory : Option Str) : Str :=
  match subcategory with
  | Option.none => S "Outros"
  | Option.some s =>
    if s = ([] : Str) then S "Outros"
    else
      let subcategory_clean := pyStrip (s.map pyLower)
      let category := (assocFind category_mapping subcategory_clean).getD []
      if category ≠ ([] : Str) then category else fallbackCategorize subcategory_clean

/-- The full-match reading of the spec's date sentence — "matches the pattern
`YYYY-MM-DD` optionally followed by a `T` or space and `HH:MM:SS`" with
nothing after it; stated from the spec's words, for comparison with the
code's prefix-anchored `re.match`. -/
def spec_date_full_match (s : Str) : Bool :=
  match dateCore s with
  | Option.none => false
  | Option.some r =>
    match r with
    | [] => true
    | _ =>
      match dateTimeTail r with
      | Option.some [] => true
      | _ => false

/-- C1: the claim says `normalize` never raises on any raw record, including
records whose values are `None`; but on `{'source': None}` the source line
`item.get('source', '').lower()` calls `.lower()` on `None` and raises
`AttributeError`.  The embedding evaluates the code at that failing input. -/
theorem c1_normalize_raises_on_none_source :
    UniversalNormalizer.normalize [("source", PyVal.none)] = Except.error (S "AttributeError") := by
  rfl

/-- C2: the classification examples of the claim, all as the code computes
them — exact table hits are case-insensitive and trimmed, "apartamento
residencial" resolves through the substring fallback to "Imóveis",
an unknown label falls through to "Outros", and absent or empty input yields
"Outros". -/
theorem c2_classification :
    categorize_item (Option.some (S "carros")) = S "Veículos" ∧
    categorize_item (Option.some (S "CARROS")) = S "Veículos" ∧
    categorize_item (Option.some (S "  CARROS  ")) = S "Veículos" ∧
    categorize_item (Option.some (S "apartamento residencial")) = S "Imóveis" ∧
    categorize_item (Option.some (S "algo totalmente novo")) = S "Outros" ∧
    categorize_item Option.none = S "Outros" ∧
    categorize_item (Option.some ([] : Str)) = S "Outros" := by
  refine ⟨by decide, by decide, by decide, by decide, by decide, by decide, by decide⟩

/-- C3 counterexample: the claim's "pass through if and only if the string
matches the pattern" fails — `re.match` only anchors at the start, so
"2026-01-12!!" does not match the full pattern yet is returned unchanged. -/
theorem c3_counterexample :
    parse_date (PyVal.str (S "2026-01-12!!")) = Option.some (S "2026-01-12!!") ∧
    spec_date_full_match (S "2026-01-12!!") = false := by
  refine ⟨by decide, by decide⟩

/-- C3 amended: `parse_date` strips the input and passes the stripped string
through exactly when the stripped string begins with `\d{4}-\d{2}-\d{2}`
(the optional time group never affects acceptance and trailing text is
allowed); all other strings yield absent.  The claim's two concrete examples
hold. -/
theorem c3_amended :
    (∀ s : Str, parse_date (PyVal.str s) =
      if dateMatch (pyStrip s) = true then Option.some (pyStrip s) else Option.none) ∧
    parse_date (PyVal.str (S "2026-01-12 09:30:00")) = Option.some (S "2026-01-12 09:30:00") ∧
    parse_date (PyVal.str (S "12/01/2026")) = Option.none := by
  refine ⟨?_, by decide, by decide⟩
  intro s
  cases s with
  | nil => decide
  | cons c cs =>
    have ht : ¬ (pyTruthy (PyVal.str (c :: cs)) = false) := by
      simp [pyTruthy, List.isEmpty]
    unfold parse_date
    rw [if_neg ht]
    have hstr : pyStr (PyVal.str (c :: cs)) = c :: cs := rfl
    rw [hstr]
    by_cases h2 : pyStrip (c :: cs) = ([] : Str)
    · rw [if_pos h2, h2]
      decide
    · rw [if_neg h2]

/-- C4 counterexample: on the claim's own input the pipeline does not produce
"Casa Na Praia" — the connector "na" stays lowercase and the comma that
preceded the auction phrase survives. -/
theorem c4_counterexample :
    smart_title_case (clean_title (PyVal.str (S "LOTE 5 - Casa na Praia, 20% abaixo na 2ª praça")) true)
      ≠ S "Casa Na Praia" := by
  decide

/-- C4 amended: cleaning that title strips the lot-number prefix and the
auction-round phrase, keeps the comma that preceded the phrase (the source
runs `rstrip(',')` before `.strip()`, so the comma is still guarded by a
space) and lowercases the connector "na", yielding exactly "Casa na Praia,". -/
theorem c4_amended :
    smart_title_case (clean_title (PyVal.str (S "LOTE 5 - Casa na Praia, 20% abaixo na 2ª praça")) true)
      = S "Casa na Praia," := by
  decide

/-- C5 counterexample: the under-5 discard is applied to the raw stripped
input, not to the cleaned text — "<p>ab</p>" is 9 characters raw, so it
passes the check, and the cleaned description "ab" of length 2 is returned. -/
theorem c5_counterexample :
    deep_clean_description (PyVal.str (S "<p>ab</p>")) true = Option.some (S "ab") ∧
    (S "ab").length < 5 := by
  refine ⟨by decide, by decide⟩

/-- C5 amended: the length-under-5 discard applies to the stripped raw input
before cleaning; after cleaning only an empty result is discarded, so cleaned
descriptions of length 1–4 can be returned (but never an empty one). -/
theorem c5_amended :
    (∀ s : Str, (pyStrip s).length < 5 → deep_clean_description (PyVal.str s) true = Option.none) ∧
    (∀ (v : PyVal) (b : Bool) (t : Str), deep_clean_description v b = Option.some t → t ≠ ([] : Str)) := by
  constructor
  · intro s h
    unfold deep_clean_description
    by_cases h0 : pyTruthy (PyVal.str s) = false
    · rw [if_pos h0]
    · rw [if_neg h0]
      have hstr : pyStr (PyVal.str s) = s := rfl
      rw [hstr, if_pos (Or.inr h)]
  · intro v b t h
    unfold deep_clean_description at h
    by_cases h0 : pyTruthy v = false
    · rw [if_pos h0] at h; exact absurd h (by simp)
    · rw [if_neg h0] at h
      by_cases h1 : pyStrip (pyStr v) = ([] : Str) ∨ (pyStrip (pyStr v)).length < 5
      · rw [if_pos h1] at h; exact absurd h (by simp)
      · rw [if_neg h1] at h
        set d2 := (if 5000 < (deep_clean_core (pyStrip (pyStr v))).length then
          (deep_clean_core (pyStrip (pyStr v))).take 4997 ++ S "..." else
          deep_clean_core (pyStrip (pyStr v))) with hd2
        by_cases h3 : d2 = ([] : Str)
        · rw [if_pos h3] at h; exact absurd h (by simp)
        · rw [if_neg h3] at h
          have : d2 = t := by exact Option.some.inj h
          rw [← this]; exact h3

/-- C5 amended, witness: both hypotheses are satisfiable — a short raw input
is discarded, and the cleaned "<p>ab</p>" gives the non-empty "ab". -/
theorem c5_amended_witness :
    deep_clean_description (PyVal.str (S "hi")) true = Option.none ∧
    S "ab" ≠ ([] : Str) := by
  refine ⟨c5_amended.1 (S "hi") (by decide),
          c5_amended.2 (PyVal.str (S "<p>ab</p>")) true (S "ab") (by decide)⟩

/-- C6 counterexample: when neither a usable description nor a title exists
the preview is the Portuguese literal "Sem Descrição", not the claimed
literal "No Description". -/
theorem c6_counterexample :
    create_preview Option.none ([] : Str) ≠ S "No Description" := by
  decide

/-- C6 amended: the preview is the *stripped* first 150 characters of the
description plus an ellipsis when the description is longer than 150; the
stripped first 150 characters alone when its length is in 11..150; the first
150 characters of the title when the description is absent or has length at
most 10 and the title is non-empty; and the literal "Sem Descrição" when
neither exists. -/
theorem c6_amended :
    (∀ (d : Str) (t : Str), 150 < d.length →
      create_preview (Option.some d) t = pyStrip (d.take 150) ++ S "...") ∧
    (∀ (d : Str) (t : Str), 10 < d.length → d.length ≤ 150 →
      create_preview (Option.some d) t = pyStrip (d.take 150)) ∧
    (∀ t : Str, t ≠ ([] : Str) → create_preview Option.none t = t.take 150) ∧
    (∀ (d : Str) (t : Str), d.length ≤ 10 → t ≠ ([] : Str) →
      create_preview (Option.some d) t = t.take 150) ∧
    create_preview Option.none ([] : Str) = S "Sem Descrição" := by
  refine ⟨?_, ?_, ?_, ?_, by decide⟩
  · intro d t h
    have hne : d ≠ ([] : Str) := List.length_pos.mp (by omega)
    have h10 : 10 < d.length := by omega
    simp only [create_preview]
    split_ifs with h1 h2 <;>
      first
        | rfl
        | exact absurd h h2
        | exact absurd ⟨hne, h10⟩ h1
  · intro d t h10 h150
    have hne : d ≠ ([] : Str) := List.length_pos.mp (by omega)
    simp only [create_preview]
    split_ifs with h1 h2 <;>
      first
        | rfl
        | exact absurd h2 (by omega)
        | exact absurd ⟨hne, h10⟩ h1
  · intro t ht
    simp only [create_preview]
    split_ifs
    rfl
  · intro d t hd ht
    simp only [create_preview]
    split_ifs with h1 h2 <;>
      first
        | rfl
        | exact absurd h1.2 (by omega)

set_option maxRecDepth 40000 in
/-- C6 amended, witness: each hypothesis combination realized at concrete
inputs. -/
theorem c6_amended_witness :
    create_preview (Option.some (List.replicate 151 'x')) (S "T")
      = pyStrip ((List.replicate 151 'x').take 150) ++ S "..." ∧
    create_preview (Option.some (S "hello worlds")) (S "T") = pyStrip ((S "hello worlds").take 150) ∧
    create_preview Option.none (S "Título") = (S "Título").take 150 ∧
    create_preview (Option.some (S "tiny")) (S "Título") = (S "Título").take 150 := by
  refine ⟨?_, ?_, ?_, ?_⟩
  · exact c6_amended.1 (List.replicate 151 'x') (S "T") (by simp)
  · exact c6_amended.2.1 (S "hello worlds") (S "T") (by decide) (by decide)
  · exact c6_amended.2.2.1 (S "Título") (by decide)
  · exact c6_amended.2.2.2.1 (S "tiny") (S "Título") (by decide) (by decide)

/-- Looking up a key just set returns the set value. -/
theorem dictSet_find_self (m : List (String × PyVal)) (k : String) (v : PyVal) :
    assocFind (dictSet m k v) k = Option.some v := by
  induction m with
  | nil => simp [dictSet, assocFind]
  | cons p rest ih =>
    by_cases h : p.1 = k
    · simp [dictSet, h, assocFind]
    · simp only [dictSet]
      rw [if_neg h]
      simp only [assocFind]
      rw [if_neg (by intro h0; exact h h0.symm)]
      exact ih

/-- Setting one key leaves lookups of other keys unchanged. -/
theorem dictSet_find_other (m : List (String × PyVal)) (k k' : String) (v : PyVal)
    (h : k' ≠ k) : assocFind (dictSet m k v) k' = assocFind m k' := by
  induction m with
  | nil => simp [dictSet, assocFind, h]
  | cons p rest ih =>
    by_cases h1 : p.1 = k
    · simp only [dictSet]
      rw [if_pos h1]
      simp only [assocFind]
      rw [if_neg (by intro h0; exact h h0), if_neg (by intro h0; rw [h0] at h; exact h h1)]
    · simp only [dictSet]
      rw [if_neg h1]
      by_cases h2 : k' = p.1
      · simp [assocFind, h2]
      · simp only [assocFind]
        rw [if_neg h2, if_neg h2]
        exact ih

/-- A `metaStep` for one field never changes the lookup of a different key. -/
theorem metaStep_find_other (item : RawRecord) (m : List (String × PyVal)) (f k : String)
    (h : k ≠ f) : assocFind (metaStep item m f) k = assocFind m k := by
  unfold metaStep
  cases hv : pyGetOpt item f with
  | none => rfl
  | some v =>
    cases v with
    | none => rfl
    | str s => exact dictSet_find_other m f k _ h
    | int n => exact dictSet_find_other m f k _ h
    | float q => exact dictSet_find_other m f k _ h
    | list xs => exact dictSet_find_other m f k _ h
    | dict d => exact dictSet_find_other m f k _ h

/-- Folding `metaStep` over fields not containing `k` preserves the lookup of
`k`. -/
theorem metaFold_find_other (item : RawRecord) (k : String) :
    ∀ (fs : List String) (m : List (String × PyVal)), ¬ k ∈ fs →
      assocFind (List.foldl (metaStep item) m fs) k = assocFind m k := by
  intro fs
  induction fs with
  | nil => intro m _; rfl
  | cons f rest ih =>
    intro m hk
    have h1 : k ≠ f := by intro h0; exact hk (by rw [h0]; exact List.mem_cons_self f rest)
    have h2 : ¬ k ∈ rest := by intro h0; exact hk (List.mem_cons_of_mem f h0)
    simp only [List.foldl]
    rw [ih (metaStep item m f) h2]
    exact metaStep_find_other item m f k h1

/-- Folding `metaStep` over a duplicate-free field list containing `f`, where
`item[f]` is present and non-null, makes the lookup of `f` return that value. -/
theorem metaFold_find_set (item : RawRecord) (f : String) (v : PyVal)
    (hv : pyGetOpt item f = Option.some v) (hnn : v ≠ PyVal.none) :
    ∀ (fs : List String) (m : List (String × PyVal)), fs.Nodup → f ∈ fs →
      assocFind (List.foldl (metaStep item) m fs) f = Option.some v := by
  intro fs
  induction fs with
  | nil => intro m _ h; exact absurd h (List.not_mem_nil f)
  | cons g rest ih =>
    intro m hnd hmem
    by_cases hfg : f = g
    · subst hfg
      have hrest : ¬ f ∈ rest := (List.nodup_cons.mp hnd).1
      simp only [List.foldl]
      rw [metaFold_find_other item f rest _ hrest]
      unfold metaStep
      rw [hv]
      cases v with
      | none => exact absurd rfl hnn
      | str s => exact dictSet_find_self m f _
      | int n => exact dictSet_find_self m f _
      | float q => exact dictSet_find_self m f _
      | list xs => exact dictSet_find_self m f _
      | dict d => exact dictSet_find_self m f _
    · have hmem' : f ∈ rest := by
        cases List.mem_cons.mp hmem with
        | inl h => exact absurd h hfg
        | inr h => exact h
      simp only [List.foldl]
      exact ih (metaStep item m g) (List.nodup_cons.mp hnd).2 hmem'

/-- Folding `metaStep` leaves the lookup of a key whose item value is absent
or `None` unchanged, even when the key is in the field list. -/
theorem metaFold_find_nullish (item : RawRecord) (k : String)
    (hk : pyGetOpt item k = Option.none ∨ pyGetOpt item k = Option.some PyVal.none) :
    ∀ (fs : List String) (m : List (String × PyVal)),
      assocFind (List.foldl (metaStep item) m fs) k = assocFind m k := by
  intro fs
  induction fs with
  | nil => intro m; rfl
  | cons f rest ih =>
    intro m
    simp only [List.foldl]
    rw [ih (metaStep item m f)]
    by_cases hfk : k = f
    · subst hfk
      unfold metaStep
      cases hk with
      | inl h => rw [h]
      | inr h => rw [h]
    · exact metaStep_find_other item m f k hfk

/-- When `normalize` succeeds, the counter and metadata fields of the result
are exactly the corresponding field parses of the input record. -/
theorem normalize_ok_proj (item : RawRecord) (r : NormalizedRecord)
    (h : UniversalNormalizer.normalize item = Except.ok r) :
    r.total_visits = parse_int (pyGetD item "total_visits" PyVal.none) 0 ∧
    r.total_bids = parse_int (pyGetD item "total_bids" PyVal.none) 0 ∧
    r.total_bidders = parse_int (pyGetD item "total_bidders" PyVal.none) 0 ∧
    r.metadata = build_metadata item := by
  unfold UniversalNormalizer.normalize at h
  split at h
  · exact absurd h (by simp)
  · split at h
    · exact absurd h (by simp)
    · injection h with h'
      rw [← h']
      exact ⟨rfl, rfl, rfl, rfl⟩

/-- C7: integer-counter parsing returns the caller-supplied default on parse
failure; `normalize` passes default 0 for `total_visits`, `total_bids` and
`total_bidders`; and a parseable negative days-remaining value is clamped
to 0. -/
theorem c7_integer_counters :
    (∀ (v : PyVal) (d : Int), pyIntConv v = Option.none → parse_int v d = d) ∧
    (∀ item : RawRecord,
      match UniversalNormalizer.normalize item with
      | Except.ok r =>
        r.total_visits = parse_int (pyGetD item "total_visits" PyVal.none) 0 ∧
        r.total_bids = parse_int (pyGetD item "total_bids" PyVal.none) 0 ∧
        r.total_bidders = parse_int (pyGetD item "total_bidders" PyVal.none) 0
      | Except.error _ => True) ∧
    (∀ (v : PyVal) (n : Int), pyIntConv v = Option.some n → n < 0 →
      parse_days_remaining v = Option.some 0) := by
  refine ⟨?_, ?_, ?_⟩
  · intro v d h
    cases v <;> simp [parse_int, h]
  · intro item
    cases hn : UniversalNormalizer.normalize item with
    | error e => exact trivial
    | ok r =>
      have := normalize_ok_proj item r hn
      exact ⟨this.1, this.2.1, this.2.2.1⟩
  · intro v n h hneg
    cases v with
    | none => exact absurd h (by simp [pyIntConv])
    | str s => simp [parse_days_remaining, h, hneg]
    | int m => simp [parse_days_remaining, h, hneg]
    | float q => simp [parse_days_remaining, h, hneg]
    | list xs => exact absurd h (by simp [pyIntConv])
    | dict d => exact absurd h (by simp [pyIntConv])

/-- C7 witness: an unparseable string falls back to the default 0, and a
negative integer days-remaining clamps to 0. -/
theorem c7_integer_counters_witness :
    parse_int (PyVal.str (S "abc")) 0 = 0 ∧
    parse_days_remaining (PyVal.int (-3)) = Option.some 0 := by
  refine ⟨c7_integer_counters.1 (PyVal.str (S "abc")) 0 (by decide),
          c7_integer_counters.2.2 (PyVal.int (-3)) (-3) rfl (by decide)⟩

/-- C8: the metadata of a normalized record is the record's existing metadata
mapping merged with exactly the allowlisted, present, non-null top-level
fields: keys outside the allowlist look up to their value in the existing
metadata mapping alone; an allowlisted present non-null field always appears
with its value; an allowlisted absent-or-None field changes nothing; the
normalized record's metadata is `build_metadata`; and on the claim's concrete
record only `brand` survives, never `foo`. -/
theorem c8_metadata_allowlist :
    (∀ (item : RawRecord) (k : String), ¬ k ∈ extra_fields →
      assocFind (build_metadata item) k = assocFind (metaBase item) k) ∧
    (∀ (item : RawRecord) (f : String) (v : PyVal), f ∈ extra_fields →
      pyGetOpt item f = Option.some v → v ≠ PyVal.none →
      assocFind (build_metadata item) f = Option.some v) ∧
    (∀ (item : RawRecord) (k : String),
      pyGetOpt item k = Option.none ∨ pyGetOpt item k = Option.some PyVal.none →
      assocFind (build_metadata item) k = assocFind (metaBase item) k) ∧
    (∀ item : RawRecord,
      match UniversalNormalizer.normalize item with
      | Except.ok r => r.metadata = build_metadata item
      | Except.error _ => True) ∧
    build_metadata [("foo", PyVal.str (S "bar")), ("brand", PyVal.str (S "Toyota"))]
      = [("brand", PyVal.str (S "Toyota"))] := by
  refine ⟨?_, ?_, ?_, ?_, rfl⟩
  · intro item k hk
    exact metaFold_find_other item k extra_fields (metaBase item) hk
  · intro item f v hf hv hnn
    exact metaFold_find_set item f v hv hnn extra_fields (metaBase item) (by decide) hf
  · intro item k hk
    exact metaFold_find_nullish item k hk extra_fields (metaBase item)
  · intro item
    cases hn : UniversalNormalizer.normalize item with
    | error e => exact trivial
    | ok r => exact (normalize_ok_proj item r hn).2.2.2

/-- C8 witness: on the claim's concrete record, `foo` is outside the
allowlist and does not appear, while the allowlisted `brand` appears with its
value. -/
theorem c8_metadata_allowlist_witness :
    assocFind (build_metadata [("foo", PyVal.str (S "bar")), ("brand", PyVal.str (S "Toyota"))]) "foo"
      = assocFind (metaBase [("foo", PyVal.str (S "bar")), ("brand", PyVal.str (S "Toyota"))]) "foo" ∧
    assocFind (build_metadata [("foo", PyVal.str (S "bar")), ("brand", PyVal.str (S "Toyota"))]) "brand"
      = Option.some (PyVal.str (S "Toyota")) ∧
    assocFind (build_metadata [("metadata", PyVal.dict [("kept", PyVal.int 1)]), ("year", PyVal.none)]) "year"
      = assocFind (metaBase [("metadata", PyVal.dict [("kept", PyVal.int 1)]), ("year", PyVal.none)]) "year" := by
  refine ⟨c8_metadata_allowlist.1 _ "foo" (by decide),
          c8_metadata_allowlist.2.1 _ "brand" (PyVal.str (S "Toyota")) (by decide) rfl (by intro h0; cases h0),
          c8_metadata_allowlist.2.2.1 _ "year" (Or.inr rfl)⟩

/-- C10: the first word of a text with at least one word is unconditionally
capitalized by `_smart_title_case` — `result = [words[0].capitalize()]` runs
before the connector-word and short-all-caps rules — so "NASA" begins a text
as "Nasa", a leading connector "de" becomes "De", while the same tokens keep
their special treatment in non-first position. -/
theorem c10_first_word :
    (∀ (t : Str) (w : Str) (ws : List Str), pySplitWS t = w :: ws →
      ∃ r, smart_title_case t = pyCapitalize w ++ r) ∧
    smart_title_case (S "NASA") = S "Nasa" ∧
    smart_title_case (S "de NASA") = S "De NASA" ∧
    smart_title_case (S "a NASA") = S "A NASA" := by
  refine ⟨?_, by decide, by decide, by decide⟩
  intro t w ws h
  have ht : t ≠ ([] : Str) := by
    intro h0
    rw [h0] at h
    simp [pySplitWS, splitWSAux] at h
  cases ws with
  | nil =>
    refine ⟨[], ?_⟩
    unfold smart_title_case
    rw [if_neg ht, h]
    exact (List.append_nil _).symm
  | cons v vs =>
    refine ⟨' ' :: joinSep ' ' (title_word v :: vs.map title_word), ?_⟩
    unfold smart_title_case
    rw [if_neg ht, h]
    rfl

/-- C10 witness: the unconditional first-word capitalization at a concrete
two-word input. -/
theorem c10_first_word_witness :
    ∃ r, smart_title_case (S "NASA agora") = pyCapitalize (S "NASA") ++ r :=
  c10_first_word.1 (S "NASA agora") (S "NASA") [S "agora"] (by decide)

/-- A successful association lookup means the pair is in the list. -/
theorem assocFind_mem {α β : Type} [DecidableEq α] (m : List (α × β)) (k : α) (v : β)
    (h : assocFind m k = Option.some v) : (k, v) ∈ m := by
  induction m with
  | nil => simp [assocFind] at h
  | cons p rest ih =>
    rcases p with ⟨k', v'⟩
    simp only [assocFind] at h
    by_cases hk : k = k'
    · rw [if_pos hk] at h
      injection h with h'
      rw [hk, h']
      exact List.mem_cons_self _ _
    · rw [if_neg hk] at h
      exact List.mem_cons_of_mem _ (ih h)

/-- Lowercase letters (the targets of the lowering table) are not in its
domain. -/
theorem lowerMap_targets_fixed : ∀ p ∈ lowerMap, assocFind lowerMap p.2 = Option.none := by decide

/-- Uppercase letters (the targets of the uppering table) are not in its
domain. -/
theorem upperMap_targets_fixed : ∀ p ∈ upperMap, assocFind upperMap p.2 = Option.none := by decide

/-- Lowering the uppercase version of a lowercase letter gives it back. -/
theorem upperMap_roundtrip : ∀ p ∈ upperMap, assocFind lowerMap p.2 = Option.some p.1 := by decide

/-- Lowercase letters are not in the lowering table's domain. -/
theorem upperMap_domain_not_upper : ∀ p ∈ upperMap, assocFind lowerMap p.1 = Option.none := by decide

/-- Case-map targets are never whitespace. -/
theorem lowerMap_targets_not_space : ∀ p ∈ lowerMap, isPySpace p.2 = false := by decide

/-- Case-map targets are never whitespace (upper direction). -/
theorem upperMap_targets_not_space : ∀ p ∈ upperMap, isPySpace p.2 = false := by decide

/-- Lowercasing a character is idempotent. -/
theorem pyLower_pyLower (c : Char) : pyLower (pyLower c) = pyLower c := by
  unfold pyLower
  cases h : assocFind lowerMap c with
  | none => simp [h]
  | some t =>
    have hm := assocFind_mem lowerMap c t h
    have ht := lowerMap_targets_fixed (c, t) hm
    simp [h, ht]

/-- Uppercasing a character is idempotent. -/
theorem pyUpper_pyUpper (c : Char) : pyUpper (pyUpper c) = pyUpper c := by
  unfold pyUpper
  cases h : assocFind upperMap c with
  | none => simp [h]
  | some t =>
    have hm := assocFind_mem upperMap c t h
    have ht := upperMap_targets_fixed (c, t) hm
    simp [h, ht]

/-- Lowercasing after uppercasing equals plain lowercasing. -/
theorem pyLower_pyUpper (c : Char) : pyLower (pyUpper c) = pyLower c := by
  unfold pyUpper
  cases h : assocFind upperMap c with
  | none => simp [h]
  | some u =>
    have hm := assocFind_mem upperMap c u h
    have h1 := upperMap_roundtrip (c, u) hm
    have h2 := upperMap_domain_not_upper (c, u) hm
    simp only [Option.getD_some]
    unfold pyLower
    rw [h1, h2]
    simp

/-- Lowercasing a non-whitespace character keeps it non-whitespace. -/
theorem pyLower_not_space (c : Char) (h : isPySpace c = false) : isPySpace (pyLower c) = false := by
  unfold pyLower
  cases h1 : assocFind lowerMap c with
  | none => simpa using h
  | some t =>
    have hm := assocFind_mem lowerMap c t h1
    simpa using lowerMap_targets_not_space (c, t) hm

/-- Uppercasing a non-whitespace character keeps it non-whitespace. -/
theorem pyUpper_not_space (c : Char) (h : isPySpace c = false) : isPySpace (pyUpper c) = false := by
  unfold pyUpper
  cases h1 : assocFind upperMap c with
  | none => simpa using h
  | some t =>
    have hm := assocFind_mem upperMap c t h1
    simpa using upperMap_targets_not_space (c, t) hm

/-- A pointwise-identity map is the identity. -/
theorem map_eq_self_of {f : Char → Char} : ∀ (l : Str), (∀ c ∈ l, f c = c) → l.map f = l := by
  intro l h
  induction l with
  | nil => rfl
  | cons c rest ih =>
    simp only [List.map, List.cons.injEq]
    exact ⟨h c (List.mem_cons_self _ _), ih (fun x hx => h x (List.mem_cons_of_mem _ hx))⟩

/-- Mapping lowercase twice equals mapping it once. -/
theorem map_pyLower_idem (l : Str) : (l.map pyLower).map pyLower = l.map pyLower := by
  apply map_eq_self_of
  intro c hc
  rcases List.mem_map.mp hc with ⟨a, _, ha⟩
  rw [← ha]
  exact pyLower_pyLower a

/-- `str.capitalize` is idempotent. -/
theorem pyCapitalize_idem (w : Str) : pyCapitalize (pyCapitalize w) = pyCapitalize w := by
  cases w with
  | nil => rfl
  | cons c cs =>
    simp only [pyCapitalize, List.cons.injEq]
    exact ⟨pyUpper_pyUpper c, map_pyLower_idem cs⟩

/-- Lowercasing a capitalized word equals lowercasing the word. -/
theorem map_pyLower_pyCapitalize (w : Str) : (pyCapitalize w).map pyLower = w.map pyLower := by
  cases w with
  | nil => rfl
  | cons c cs =>
    simp only [pyCapitalize, List.map, List.cons.injEq]
    exact ⟨pyLower_pyUpper c, map_pyLower_idem cs⟩

/-- The connector words are lowercase-fixed. -/
theorem lw_words_lower_fixed : ∀ w ∈ LOWERCASE_WORDS, w.map pyLower = w := by decide

/-- No connector word is all-caps in Python's sense. -/
theorem lw_words_not_upper : ∀ w ∈ LOWERCASE_WORDS, py_isupper w = false := by decide

/-- The per-word title-casing rule is idempotent. -/
theorem title_word_idem (w : Str) : title_word (title_word w) = title_word w := by
  by_cases h1 : py_isupper w = true ∧ w.length ≤ 5
  · have e : title_word w = w := by unfold title_word; rw [if_pos h1]
    rw [e]
    exact e
  · by_cases h2 : (w.map pyLower) ∈ LOWERCASE_WORDS
    · have e : title_word w = w.map pyLower := by
        unfold title_word; rw [if_neg h1, if_pos h2]
      rw [e]
      have hl := lw_words_lower_fixed _ h2
      have hu := lw_words_not_upper _ h2
      unfold title_word
      rw [if_neg (by intro hc; exact Bool.false_ne_true (hu.symm.trans hc.1))]
      rw [if_pos (by rw [hl]; exact h2)]
      exact hl
    · have e : title_word w = pyCapitalize w := by
        unfold title_word; rw [if_neg h1, if_neg h2]
      rw [e]
      by_cases h3 : py_isupper (pyCapitalize w) = true ∧ (pyCapitalize w).length ≤ 5
      · unfold title_word; rw [if_pos h3]
      · unfold title_word
        rw [if_neg h3]
        rw [if_neg (by rw [map_pyLower_pyCapitalize w]; exact h2)]
        exact pyCapitalize_idem w

/-- A word as produced by whitespace splitting: non-empty and
whitespace-free. -/
def goodWord (w : Str) : Prop := w ≠ ([] : Str) ∧ ∀ c ∈ w, isPySpace c = false

/-- Every word produced by the splitter (over a whitespace-free accumulator)
is non-empty and whitespace-free. -/
theorem splitWSAux_good (s : Str) : ∀ (acc : Str), (∀ c ∈ acc, isPySpace c = false) →
    ∀ w ∈ splitWSAux s acc, goodWord w := by
  induction s with
  | nil =>
    intro acc hacc w hw
    simp only [splitWSAux] at hw
    by_cases ha : acc = ([] : Str)
    · rw [if_pos ha] at hw
      simp at hw
    · rw [if_neg ha] at hw
      simp at hw
      subst hw
      refine ⟨by simpa using ha, ?_⟩
      intro c hc
      exact hacc c (List.mem_reverse.mp hc)
  | cons a rest ih =>
    intro acc hacc w hw
    simp only [splitWSAux] at hw
    by_cases hsp : isPySpace a = true
    · rw [if_pos hsp] at hw
      by_cases ha : acc = ([] : Str)
      · rw [if_pos ha] at hw
        exact ih [] (by simp) w hw
      · rw [if_neg ha] at hw
        rcases List.mem_cons.mp hw with h1 | h1
        · subst h1
          refine ⟨by simpa using ha, ?_⟩
          intro c hc
          exact hacc c (List.mem_reverse.mp hc)
        · exact ih [] (by simp) w h1
    · rw [if_neg hsp] at hw
      refine ih (a :: acc) ?_ w hw
      intro c hc
      rcases List.mem_cons.mp hc with h1 | h1
      · subst h1; simpa using hsp
      · exact hacc c h1

/-- Every word of `pySplitWS` is non-empty and whitespace-free. -/
theorem pySplitWS_good (s : Str) : ∀ w ∈ pySplitWS s, goodWord w :=
  splitWSAux_good s [] (by simp)

/-- One splitter step over a non-whitespace character. -/
theorem splitWSAux_cons_nonspace (c : Char) (s acc : Str) (hc : isPySpace c = false) :
    splitWSAux (c :: s) acc = splitWSAux s (c :: acc) := by
  simp [splitWSAux, hc]

/-- Scanning a whitespace-free word just accumulates it reversed. -/
theorem splitWSAux_word_scan (w : Str) (hw : ∀ c ∈ w, isPySpace c = false) :
    ∀ (rest : Str) (acc : Str), splitWSAux (w ++ rest) acc = splitWSAux rest (w.reverse ++ acc) := by
  induction w with
  | nil => intro rest acc; simp
  | cons c cs ih =>
    intro rest acc
    have hc : isPySpace c = false := hw c (List.mem_cons_self _ _)
    rw [List.cons_append, splitWSAux_cons_nonspace c (cs ++ rest) acc hc]
    rw [ih (fun x hx => hw x (List.mem_cons_of_mem _ hx)) rest (c :: acc)]
    congr 1
    simp

/-- Splitting the single-space join of good words gives the words back. -/
theorem pySplitWS_joinWords : ∀ (ws : List Str), (∀ w ∈ ws, goodWord w) →
    pySplitWS (joinWords ws) = ws := by
  intro ws
  induction ws with
  | nil => intro _; rfl
  | cons w rest ih =>
    intro h
    have hw := h w (List.mem_cons_self _ _)
    cases rest with
    | nil =>
      show splitWSAux w [] = [w]
      rw [← List.append_nil w, splitWSAux_word_scan w hw.2 [] []]
      simp only [splitWSAux, List.append_nil]
      rw [if_neg (by simpa using hw.1)]
      simp
    | cons v vs =>
      show splitWSAux (w ++ ' ' :: joinSep ' ' (v :: vs)) [] = w :: v :: vs
      rw [splitWSAux_word_scan w hw.2 _ []]
      simp only [List.append_nil, splitWSAux]
      rw [if_pos (by decide)]
      rw [if_neg (by simpa using hw.1)]
      rw [List.reverse_reverse]
      congr 1
      exact ih (fun u hu => h u (List.mem_cons_of_mem _ hu))

/-- The join of a list headed by a non-empty word is non-empty. -/
theorem joinWords_ne_nil (w : Str) (ws : List Str) (hw : w ≠ ([] : Str)) :
    joinWords (w :: ws) ≠ ([] : Str) := by
  cases ws with
  | nil => exact hw
  | cons v vs =>
    show w ++ ' ' :: joinSep ' ' (v :: vs) ≠ ([] : Str)
    simp

/-- Lowercasing keeps a word good. -/
theorem goodWord_map_pyLower (w : Str) (h : goodWord w) : goodWord (w.map pyLower) := by
  refine ⟨by simpa using h.1, ?_⟩
  intro c hc
  rcases List.mem_map.mp hc with ⟨a, ha, rfl⟩
  exact pyLower_not_space a (h.2 a ha)

/-- Capitalizing keeps a word good. -/
theorem goodWord_pyCapitalize (w : Str) (h : goodWord w) : goodWord (pyCapitalize w) := by
  cases w with
  | nil => exact absurd rfl h.1
  | cons c cs =>
    refine ⟨by simp [pyCapitalize], ?_⟩
    intro x hx
    simp only [pyCapitalize] at hx
    rcases List.mem_cons.mp hx with h1 | h1
    · subst h1
      exact pyUpper_not_space c (h.2 c (List.mem_cons_self _ _))
    · rcases List.mem_map.mp h1 with ⟨a, ha, rfl⟩
      exact pyLower_not_space a (h.2 a (List.mem_cons_of_mem _ ha))

/-- The title-word rule keeps a word good. -/
theorem goodWord_title_word (w : Str) (h : goodWord w) : goodWord (title_word w) := by
  by_cases h1 : py_isupper w = true ∧ w.length ≤ 5
  · have e : title_word w = w := by unfold title_word; rw [if_pos h1]
    rw [e]; exact h
  · by_cases h2 : (w.map pyLower) ∈ LOWERCASE_WORDS
    · have e : title_word w = w.map pyLower := by
        unfold title_word; rw [if_neg h1, if_pos h2]
      rw [e]; exact goodWord_map_pyLower w h
    · have e : title_word w = pyCapitalize w := by
        unfold title_word; rw [if_neg h1, if_neg h2]
      rw [e]; exact goodWord_pyCapitalize w h

/-- Smart title-casing is idempotent. -/
theorem smart_title_case_idem (x : Str) :
    smart_title_case (smart_title_case x) = smart_title_case x := by
  by_cases hx : x = ([] : Str)
  · rw [hx]
    rfl
  · cases hsp : pySplitWS x with
    | nil =>
      have e : smart_title_case x = x := by
        unfold smart_title_case; rw [if_neg hx, hsp]
      rw [e]
      exact e
    | cons w ws =>
      have hgoodx := pySplitWS_good x
      rw [hsp] at hgoodx
      have hw := hgoodx w (List.mem_cons_self _ _)
      have e : smart_title_case x = joinWords (pyCapitalize w :: ws.map title_word) := by
        unfold smart_title_case; rw [if_neg hx, hsp]
      rw [e]
      have hgood : ∀ u ∈ (pyCapitalize w :: ws.map title_word), goodWord u := by
        intro u hu
        rcases List.mem_cons.mp hu with h1 | h1
        · subst h1; exact goodWord_pyCapitalize w hw
        · rcases List.mem_map.mp h1 with ⟨v, hv, rfl⟩
          exact goodWord_title_word v (hgoodx v (List.mem_cons_of_mem _ hv))
      have hne := joinWords_ne_nil (pyCapitalize w) (ws.map title_word) (goodWord_pyCapitalize w hw).1
      unfold smart_title_case
      rw [if_neg hne, pySplitWS_joinWords _ hgood]
      show joinWords (pyCapitalize (pyCapitalize w) :: (ws.map title_word).map title_word)
        = joinWords (pyCapitalize w :: ws.map title_word)
      rw [pyCapitalize_idem w, List.map_map]
      congr 1
      congr 1
      apply List.map_congr_left
      intro a _
      exact title_word_idem a

/-- A left fold of pointwise maps is the map of the pointwise fold. -/
theorem foldl_map_maps (tab : List (Char × Char)) (s : Str) :
    tab.foldl (fun acc p => acc.map (fun c => if c = p.1 then p.2 else c)) s
      = s.map (fun c => tab.foldl (fun a p => if a = p.1 then p.2 else a) c) := by
  induction tab generalizing s with
  | nil => simp
  | cons p rest ih =>
    simp only [List.foldl]
    rw [ih (s.map _), List.map_map]
    rfl

/-- The pointwise composite of the accent-substitution passes. -/
def replComp (c : Char) : Char :=
  accent_replacements.foldl (fun a p => if a = p.1 then p.2 else a) c

/-- The sequential accent-replacement loop acts pointwise. -/
theorem apply_replacements_eq_map (s : Str) : apply_replacements s = s.map replComp :=
  foldl_map_maps accent_replacements s

/-- A character equal to no table key is fixed by the pointwise fold. -/
theorem pointfold_fixed (c : Char) : ∀ (tab : List (Char × Char)), (∀ p ∈ tab, c ≠ p.1) →
    tab.foldl (fun a p => if a = p.1 then p.2 else a) c = c := by
  intro tab
  induction tab with
  | nil => intro _; rfl
  | cons p rest ih =>
    intro h
    simp only [List.foldl]
    rw [if_neg (h p (List.mem_cons_self _ _))]
    exact ih (fun q hq => h q (List.mem_cons_of_mem _ hq))

/-- A character that is not an accent key is fixed by the composite. -/
theorem replComp_not_key (c : Char) (h : ∀ p ∈ accent_replacements, c ≠ p.1) :
    replComp c = c :=
  pointfold_fixed c accent_replacements h

/-- Each accent key maps to its table target. -/
theorem replComp_key : ∀ p ∈ accent_replacements, replComp p.1 = p.2 := by decide

/-- Accent targets are lowercase-fixed, are not accent keys themselves, and
are word characters. -/
theorem accent_targets_props : ∀ p ∈ accent_replacements,
    pyLower p.2 = p.2 ∧ (∀ q ∈ accent_replacements, p.2 ≠ q.1) ∧ isWordChar p.2 = true := by
  decide

/-- After lowering and accent folding, every character is lowercase-fixed and
accent-key-free. -/
theorem replComp_pyLower_props (a : Char) :
    pyLower (replComp (pyLower a)) = replComp (pyLower a) ∧
    ∀ p ∈ accent_replacements, replComp (pyLower a) ≠ p.1 := by
  by_cases hk : ∀ p ∈ accent_replacements, pyLower a ≠ p.1
  · rw [replComp_not_key _ hk]
    exact ⟨pyLower_pyLower a, hk⟩
  · push_neg at hk
    rcases hk with ⟨p, hp, hpe⟩
    rw [hpe, replComp_key p hp]
    have h := accent_targets_props p hp
    exact ⟨h.1, h.2.1⟩

/-- Characters of the collapsed string: the inserted space, or an original
non-whitespace character. -/
theorem mem_collapseWS (x : Str) : ∀ c ∈ collapseWS x, c = ' ' ∨ (c ∈ x ∧ isPySpace c = false) := by
  induction x with
  | nil => intro c h; simp [collapseWS] at h
  | cons a rest ih =>
    intro c h
    cases rest with
    | nil =>
      simp only [collapseWS] at h
      by_cases ha : isPySpace a = true
      · rw [if_pos ha] at h
        simp at h
        exact Or.inl h
      · rw [if_neg ha] at h
        simp at h
        subst h
        exact Or.inr ⟨List.mem_cons_self _ _, by simpa using ha⟩
    | cons b rest' =>
      simp only [collapseWS] at h
      by_cases ha : isPySpace a = true
      · rw [if_pos ha] at h
        by_cases hb : isPySpace b = true
        · rw [if_pos hb] at h
          rcases ih c h with h1 | ⟨h2, h3⟩
          · exact Or.inl h1
          · exact Or.inr ⟨List.mem_cons_of_mem _ h2, h3⟩
        · rw [if_neg hb] at h
          rcases List.mem_cons.mp h with h1 | h1
          · exact Or.inl h1
          · rcases ih c h1 with h2 | ⟨h3, h4⟩
            · exact Or.inl h2
            · exact Or.inr ⟨List.mem_cons_of_mem _ h3, h4⟩
      · rw [if_neg ha] at h
        rcases List.mem_cons.mp h with h1 | h1
        · subst h1
          exact Or.inr ⟨List.mem_cons_self _ _, by simpa using ha⟩
        · rcases ih c h1 with h2 | ⟨h3, h4⟩
          · exact Or.inl h2
          · exact Or.inr ⟨List.mem_cons_of_mem _ h3, h4⟩

/-- The head of a collapsed non-empty string. -/
theorem collapseWS_head (rest : Str) : ∀ d : Char,
    (collapseWS (d :: rest)).head? = Option.some (if isPySpace d = true then ' ' else d) := by
  induction rest with
  | nil =>
    intro d
    by_cases hd : isPySpace d = true
    · simp [collapseWS, hd]
    · simp [collapseWS, hd]
  | cons e r ih =>
    intro d
    by_cases hd : isPySpace d = true
    · by_cases he : isPySpace e = true
      · simp only [collapseWS]
        rw [if_pos hd, if_pos he, ih e, if_pos he, if_pos hd]
      · simp only [collapseWS]
        rw [if_pos hd, if_neg he, if_pos hd]
        rfl
    · simp only [collapseWS]
      rw [if_neg hd, if_neg hd]
      rfl

/-- No two adjacent whitespace characters. -/
def noAdj : Str → Prop
  | [] => True
  | [_] => True
  | c :: d :: rest => ¬(isPySpace c = true ∧ isPySpace d = true) ∧ noAdj (d :: rest)

/-- The tail of an adjacency-free string is adjacency-free. -/
theorem noAdj_tail (c : Char) (l : Str) (h : noAdj (c :: l)) : noAdj l := by
  cases l with
  | nil => trivial
  | cons d r => exact h.2

/-- Collapsing whitespace leaves no two adjacent whitespace characters. -/
theorem noAdj_collapseWS (x : Str) : noAdj (collapseWS x) := by
  induction x with
  | nil => trivial
  | cons a rest ih =>
    cases rest with
    | nil =>
      by_cases ha : isPySpace a = true
      · simp only [collapseWS]
        rw [if_pos ha]
        trivial
      · simp only [collapseWS]
        rw [if_neg ha]
        trivial
    | cons b r =>
      by_cases ha : isPySpace a = true
      · by_cases hb : isPySpace b = true
        · simp only [collapseWS]
          rw [if_pos ha, if_pos hb]
          exact ih
        · simp only [collapseWS]
          rw [if_pos ha, if_neg hb]
          have hh := collapseWS_head r b
          cases hcl : collapseWS (b :: r) with
          | nil => trivial
          | cons e L =>
            rw [hcl] at hh
            simp only [List.head?] at hh
            injection hh with hh'
            constructor
            · intro hcon
              rw [hh', if_neg hb] at hcon
              exact hb hcon.2
            · have h2 := ih
              rw [hcl] at h2
              exact h2
      · simp only [collapseWS]
        rw [if_neg ha]
        cases hcl : collapseWS (b :: r) with
        | nil => trivial
        | cons e L =>
          constructor
          · intro hcon
            exact absurd hcon.1 ha
          · have h2 := ih
            rw [hcl] at h2
            exact h2

/-- Dropping leading whitespace preserves adjacency-freedom. -/
theorem noAdj_dropLeadingWS (l : Str) (h : noAdj l) : noAdj (dropLeadingWS l) := by
  induction l with
  | nil => trivial
  | cons c r ih =>
    simp only [dropLeadingWS, List.dropWhile]
    by_cases hc : isPySpace c = true
    · rw [hc]
      exact ih (noAdj_tail c r h)
    · rw [Bool.of_not_eq_true hc]
      exact h

/-- A non-empty right-trim starts with the original head. -/
theorem dropTrailingIf_cons (p : Char → Bool) (r : Str) (e : Char) (t : Str) :
    ∀ (a : Char), dropTrailingIf p (a :: r) = e :: t → a = e := by
  intro a h
  simp only [dropTrailingIf] at h
  cases hr : dropTrailingIf p r with
  | nil =>
    rw [hr] at h
    by_cases hp : p a = true
    · rw [if_pos hp] at h
      exact absurd h (by simp)
    · rw [if_neg hp] at h
      injection h
  | cons f u =>
    rw [hr] at h
    injection h

/-- Right-trimming preserves adjacency-freedom. -/
theorem noAdj_dropTrailingIf (p : Char → Bool) (l : Str) (h : noAdj l) :
    noAdj (dropTrailingIf p l) := by
  induction l with
  | nil => trivial
  | cons c r ih =>
    simp only [dropTrailingIf]
    cases hr : dropTrailingIf p r with
    | nil =>
      by_cases hp : p c = true
      · rw [if_pos hp]; trivial
      · rw [if_neg hp]; trivial
    | cons e t =>
      have h2 := ih (noAdj_tail c r h)
      rw [hr] at h2
      constructor
      · intro hcon
        cases r with
        | nil => simp [dropTrailingIf] at hr
        | cons b r' =>
          have hbe : b = e := dropTrailingIf_cons p r' e t b hr
          exact h.1 ⟨hcon.1, hbe ▸ hcon.2⟩
      · exact h2

/-- The last character of a non-empty right-trim fails the predicate. -/
theorem dropTrailingIf_last (p : Char → Bool) : ∀ (l : Str),
    dropTrailingIf p l = ([] : Str) ∨
    ∃ c, (dropTrailingIf p l).getLast? = Option.some c ∧ p c = false := by
  intro l
  induction l with
  | nil => exact Or.inl rfl
  | cons a r ih =>
    simp only [dropTrailingIf]
    cases hr : dropTrailingIf p r with
    | nil =>
      by_cases hp : p a = true
      · rw [if_pos hp]; exact Or.inl rfl
      · rw [if_neg hp]
        exact Or.inr ⟨a, rfl, Bool.of_not_eq_true hp⟩
    | cons e t =>
      rcases ih with h1 | ⟨c, hc, hpc⟩
      · rw [h1] at hr; exact absurd hr (by simp)
      · rw [hr] at hc
        refine Or.inr ⟨c, ?_, hpc⟩
        rw [List.getLast?_cons_cons]
        exact hc

/-- Characters survive right-trimming only from the original string. -/
theorem mem_dropTrailingIf (p : Char → Bool) : ∀ (l : Str) (c : Char),
    c ∈ dropTrailingIf p l → c ∈ l := by
  intro l
  induction l with
  | nil => intro c h; simp [dropTrailingIf] at h
  | cons a r ih =>
    intro c h
    simp only [dropTrailingIf] at h
    cases hr : dropTrailingIf p r with
    | nil =>
      rw [hr] at h
      by_cases hp : p a = true
      · rw [if_pos hp] at h; simp at h
      · rw [if_neg hp] at h
        simp at h
        subst h
        exact List.mem_cons_self _ _
    | cons e t =>
      rw [hr] at h
      rcases List.mem_cons.mp h with h1 | h1
      · subst h1; exact List.mem_cons_self _ _
      · exact List.mem_cons_of_mem _ (ih c (hr ▸ h1))

/-- Characters survive left-trimming only from the original string. -/
theorem mem_dropLeadingWS (l : Str) (c : Char) (h : c ∈ dropLeadingWS l) : c ∈ l := by
  induction l with
  | nil => simp [dropLeadingWS] at h
  | cons a r ih =>
    simp only [dropLeadingWS, List.dropWhile] at h
    by_cases ha : isPySpace a = true
    · rw [ha] at h
      exact List.mem_cons_of_mem _ (ih h)
    · rw [Bool.of_not_eq_true ha] at h
      exact h

/-- Characters of the stripped string come from the original. -/
theorem mem_pyStrip (s : Str) (c : Char) (h : c ∈ pyStrip s) : c ∈ s :=
  mem_dropLeadingWS s c (mem_dropTrailingIf isPySpace (dropLeadingWS s) c h)

/-- The head of a left-trim is not whitespace. -/
theorem dropLeadingWS_head (l : Str) : ∀ c, (dropLeadingWS l).head? = Option.some c →
    isPySpace c = false := by
  induction l with
  | nil => intro c h; simp [dropLeadingWS] at h
  | cons a r ih =>
    intro c h
    simp only [dropLeadingWS, List.dropWhile] at h
    by_cases ha : isPySpace a = true
    · rw [ha] at h
      exact ih c h
    · rw [Bool.of_not_eq_true ha] at h
      simp only [List.head?] at h
      injection h with h'
      rw [← h']
      exact Bool.of_not_eq_true ha

/-- The head of the stripped string is not whitespace. -/
theorem pyStrip_head (s : Str) : ∀ c, (pyStrip s).head? = Option.some c → isPySpace c = false := by
  intro c h
  unfold pyStrip at h
  cases hl : dropLeadingWS s with
  | nil => rw [hl] at h; simp [dropTrailingIf] at h
  | cons a r =>
    rw [hl] at h
    cases ht : dropTrailingIf isPySpace (a :: r) with
    | nil => rw [ht] at h; simp at h
    | cons e t =>
      rw [ht] at h
      simp only [List.head?] at h
      injection h with h'
      have hae := dropTrailingIf_cons isPySpace r e t a ht
      apply dropLeadingWS_head s
      rw [hl]
      show (a :: r).head? = Option.some c
      rw [hae, h']
      rfl

/-- The last character of the stripped string is not whitespace. -/
theorem pyStrip_last (s : Str) : ∀ c, (pyStrip s).getLast? = Option.some c →
    isPySpace c = false := by
  intro c h
  unfold pyStrip at h
  rcases dropTrailingIf_last isPySpace (dropLeadingWS s) with h1 | ⟨d, hd, hpd⟩
  · rw [h1] at h; simp at h
  · rw [hd] at h
    injection h with h'
    rw [← h']
    exact hpd

/-- Collapse is the identity on adjacency-free strings whose whitespace is
exactly single spaces. -/
theorem collapseWS_id (t : Str) (hna : noAdj t) (hsp : ∀ c ∈ t, isPySpace c = true → c = ' ') :
    collapseWS t = t := by
  induction t with
  | nil => rfl
  | cons c r ih =>
    cases r with
    | nil =>
      simp only [collapseWS]
      by_cases hc : isPySpace c = true
      · rw [if_pos hc, hsp c (List.mem_cons_self _ _) hc]
      · rw [if_neg hc]
    | cons d r' =>
      simp only [collapseWS]
      by_cases hc : isPySpace c = true
      · have hd : ¬ isPySpace d = true := fun hdd => hna.1 ⟨hc, hdd⟩
        rw [if_pos hc, if_neg hd,
          ih hna.2 (fun x hx hxs => hsp x (List.mem_cons_of_mem _ hx) hxs),
          hsp c (List.mem_cons_self _ _) hc]
      · rw [if_neg hc,
          ih hna.2 (fun x hx hxs => hsp x (List.mem_cons_of_mem _ hx) hxs)]

/-- Left-trim is the identity when the head is not whitespace. -/
theorem dropLeadingWS_id (t : Str) (hh : ∀ c, t.head? = Option.some c → isPySpace c = false) :
    dropLeadingWS t = t := by
  cases t with
  | nil => rfl
  | cons c r =>
    simp only [dropLeadingWS, List.dropWhile]
    rw [hh c rfl]

/-- Right-trim is the identity when the last character fails the predicate. -/
theorem dropTrailingIf_id (p : Char → Bool) (t : Str)
    (hl : ∀ c, t.getLast? = Option.some c → p c = false) : dropTrailingIf p t = t := by
  induction t with
  | nil => rfl
  | cons c r ih =>
    cases r with
    | nil =>
      simp only [dropTrailingIf]
      have hc := hl c rfl
      simp [hc]
    | cons d r' =>
      have hr : dropTrailingIf p (d :: r') = d :: r' :=
        ih (fun x hx => hl x (by rw [List.getLast?_cons_cons]; exact hx))
      show (match dropTrailingIf p (d :: r') with
        | [] => if p c = true then [] else [c]
        | r => c :: r) = c :: d :: r'
      rw [hr]

/-- A character in canonical search form: lowercase-fixed, accent-free, and
either a non-whitespace word character or the single space. -/
def charCanonNS (c : Char) : Prop :=
  pyLower c = c ∧ (∀ p ∈ accent_replacements, c ≠ p.1) ∧
  ((isWordChar c = true ∧ isPySpace c = false) ∨ c = ' ')

/-- A canonical character that is whitespace is the space itself. -/
theorem canonNS_space_char (c : Char) (h : charCanonNS c) (hs : isPySpace c = true) : c = ' ' := by
  rcases h.2.2 with ⟨_, hns⟩ | he
  · exact absurd hs (by simp [hns])
  · exact he

/-- Search normalization is the identity on canonical strings. -/
theorem normalize_for_search_canon_id (t : Str)
    (hc : ∀ c ∈ t, charCanonNS c) (hna : noAdj t)
    (hh : ∀ c, t.head? = Option.some c → isPySpace c = false)
    (hl : ∀ c, t.getLast? = Option.some c → isPySpace c = false) :
    normalize_for_search t = t := by
  by_cases ht : t = ([] : Str)
  · rw [ht]; rfl
  · unfold normalize_for_search
    rw [if_neg ht]
    show pyStrip (collapseWS ((apply_replacements (t.map pyLower)).map
      (fun c => if isWordChar c || isPySpace c then c else ' '))) = t
    rw [map_eq_self_of t (fun c h => (hc c h).1)]
    rw [apply_replacements_eq_map,
      map_eq_self_of t (fun c h => replComp_not_key c (hc c h).2.1)]
    rw [map_eq_self_of t ?stage3]
    case stage3 =>
      intro c h
      rcases (hc c h).2.2 with ⟨hw, _⟩ | he
      · simp [hw]
      · subst he; rfl
    rw [collapseWS_id t hna (fun c hm hs => canonNS_space_char c (hc c hm) hs)]
    show dropTrailingIf isPySpace (dropLeadingWS t) = t
    rw [dropLeadingWS_id t hh]
    exact dropTrailingIf_id isPySpace t hl

/-- The output of search normalization is canonical. -/
theorem normalize_for_search_canon (s : Str) :
    (∀ c ∈ normalize_for_search s, charCanonNS c) ∧ noAdj (normalize_for_search s) ∧
    (∀ c, (normalize_for_search s).head? = Option.some c → isPySpace c = false) ∧
    (∀ c, (normalize_for_search s).getLast? = Option.some c → isPySpace c = false) := by
  by_cases hs : s = ([] : Str)
  · rw [hs]
    refine ⟨?_, ?_, ?_, ?_⟩
    · intro c h; simp [normalize_for_search] at h
    · show noAdj ([] : Str); trivial
    · intro c h; simp [normalize_for_search] at h
    · intro c h; simp [normalize_for_search] at h
  · have hform : normalize_for_search s = pyStrip (collapseWS ((apply_replacements (s.map pyLower)).map
      (fun c => if isWordChar c || isPySpace c then c else ' '))) := by
      unfold normalize_for_search
      rw [if_neg hs]
    rw [hform]
    refine ⟨?_, ?_, ?_, ?_⟩
    · intro c hcm
      rcases mem_collapseWS _ c (mem_pyStrip _ c hcm) with he | ⟨hm3, hnsp⟩
      · subst he
        exact ⟨by decide, by decide, Or.inr rfl⟩
      · rcases List.mem_map.mp hm3 with ⟨y, hy, hyc⟩
        by_cases hcond : (isWordChar y || isPySpace y) = true
        · rw [if_pos hcond] at hyc
          subst hyc
          rw [apply_replacements_eq_map] at hy
          rcases List.mem_map.mp hy with ⟨z, hz, hzy⟩
          rcases List.mem_map.mp hz with ⟨a, _, haz⟩
          rw [← haz] at hzy
          subst hzy
          have props := replComp_pyLower_props a
          refine ⟨props.1, props.2, Or.inl ⟨?_, hnsp⟩⟩
          have hor : isWordChar (replComp (pyLower a)) = true ∨
              isPySpace (replComp (pyLower a)) = true := by
            simpa using hcond
          rcases hor with hword | hspace
          · exact hword
          · exact absurd hspace (by simp [hnsp])
        · rw [if_neg hcond] at hyc
          rw [← hyc] at hnsp
          exact absurd hnsp (by decide)
    · generalize (apply_replacements (s.map pyLower)).map
        (fun c => if isWordChar c || isPySpace c then c else ' ') = n3
      exact noAdj_dropTrailingIf _ _ (noAdj_dropLeadingWS _ (noAdj_collapseWS n3))
    · generalize (apply_replacements (s.map pyLower)).map
        (fun c => if isWordChar c || isPySpace c then c else ' ') = n3
      exact pyStrip_head (collapseWS n3)
    · generalize (apply_replacements (s.map pyLower)).map
        (fun c => if isWordChar c || isPySpace c then c else ' ') = n3
      exact pyStrip_last (collapseWS n3)

/-- C9: both smart title-casing and search accent-folding are idempotent: a
second application of either function returns its input unchanged. -/
theorem c9_idempotence :
    (∀ x : Str, smart_title_case (smart_title_case x) = smart_title_case x) ∧
    (∀ x : Str, normalize_for_search (normalize_for_search x) = normalize_for_search x) := by
  refine ⟨smart_title_case_idem, ?_⟩
  intro x
  have h := normalize_for_search_canon x
  exact normalize_for_search_canon_id _ h.1 h.2.1 h.2.2.1 h.2.2.2
